import Mathlib

/-!
# ZGC physical memory backing on Windows

A shallow embedding of `src/hotspot/os/windows/gc/z/zPhysicalMemoryBacking_windows.cpp`:
the small-pages strategy (one paging-file mapping per granule, handles kept in a
granule map), the large-pages strategy (shared AWE physical pages) and the
`ZPhysicalMemoryBacking` facade that selects one of them and forwards to it.

Conventions of the embedding.

* `size_t`, `zbacking_offset`, `zaddress_unsafe` and `HANDLE` values are natural
  numbers.  Two operations of the code can leave the 64 bits of `size_t`.  The
  shift `npages_res << ZGranuleSizeShift` is reduced modulo `2 ^ 64`.  The counter
  of the loops `for (size_t i = 0; i < size; i += ZGranuleSize)` is a natural
  number: it never exceeds `size` rounded up to a multiple of the granule size, so
  the loops are exact whenever that is below `2 ^ 64`, in particular for every
  `size` that is a multiple of the granule size and fits in `size_t`.
* A call either returns (`Except.ok`) or ends the process (`Except.error`) with
  the `Abort` reason: a failed `assert` (debug build semantics of
  `utilities/debug.hpp`) or a call of `fatal`.
* Calls into the operating system are recorded in a trace.  The results of the
  calls whose outcome the code tests (the creation of a mapping object, the AWE
  calls) are supplied by the caller of the model, so that a theorem states as a
  hypothesis what it assumes about them; the `ZMapper` primitives that bind and
  unbind a view are modelled from the spec.
* Logging (`log_trace`, `log_debug`) has no effect on the state and is left out.
-/

namespace ZBacking

/-! ## Machine-level types and constants -/

/-- HANDLE of the Windows API; the value 0 is the null handle. -/
abbrev HANDLE := Nat

/-- INVALID_HANDLE_VALUE of the Windows API, `(HANDLE)-1` on a 64-bit target. -/
def INVALID_HANDLE_VALUE : HANDLE := 2 ^ 64 - 1

/-- Modelled from the spec: `ZGranuleSize` of `gc/z/zGlobals.hpp`, which is not among the
files embedded here.  The granule size is the power of two whose exponent is
`ZGranuleSizeShift`; the shift is a parameter `sh` of every definition below. -/
def ZGranuleSize (sh : Nat) : Nat := 1 <<< sh

/-- Modelled from the spec: `is_aligned` of `utilities/align.hpp`: the value is a multiple of the
alignment. -/
def is_aligned (value alignment : Nat) : Bool := value % alignment == 0

/-- Reasons for which a call does not return: the failed assertion (by its
message) or the `fatal` call that ended the process.  `loop_guard` is not a
behaviour of the program: it is what a loop of the model yields when its
iteration bound is used up, which the bounds chosen below exclude. -/
inductive Abort where
  | assert_should_be_set
  | assert_invalid_handle
  | assert_should_be_cleared
  | assert_misaligned
  | fatal_mapper
  | fatal_allocate
  | fatal_uncommit
  | fatal_map_view
  | fatal_unmap_view
  | loop_guard
  deriving DecidableEq, Repr

/-- The aborts raised by `assert`. -/
def Abort.isAssert : Abort → Bool
  | .assert_should_be_set => true
  | .assert_invalid_handle => true
  | .assert_should_be_cleared => true
  | .assert_misaligned => true
  | _ => false

/-- Outcome of a call: a returned value, or the reason the process ended. -/
abbrev Exec (α : Type) := Except Abort α

/-! ## The granule map of handles -/

/-- Modelled from the spec: `ZGranuleMap<HANDLE>` of `gc/z/zGranuleMap.inline.hpp`, which is not
among the files embedded here: a store keyed by offset whose slots hold a handle or
0 (empty).  Its capacity bound is not modelled.  For granule-aligned offsets,
slots keyed by offset and slots keyed by granule index are the same store. -/
abbrev ZGranuleMap := Nat → HANDLE

/-- Modelled from the spec: `ZGranuleMap::get`: the handle stored at the offset, 0 when empty. -/
def ZGranuleMap.get (m : ZGranuleMap) (offset : Nat) : HANDLE := m offset

/-- Modelled from the spec: `ZGranuleMap::put`: overwrite the slot of the offset. -/
def ZGranuleMap.put (m : ZGranuleMap) (offset : Nat) (value : HANDLE) : ZGranuleMap :=
  fun o => if o = offset then value else m o

/-- The granule map after construction: every slot empty. -/
def ZGranuleMap.empty : ZGranuleMap := fun _ => 0

/-! ## The ZMapper primitives -/

/-- One call of a `ZMapper` primitive, with its arguments and, for a creation,
its result. -/
inductive MapperCall where
  | create (size : Nat) (result : HANDLE)
  | close (handle : HANDLE)
  | map_view (handle : HANDLE) (file_offset : Nat) (addr : Nat) (size : Nat)
  | unmap_view (addr : Nat) (size : Nat)
  deriving DecidableEq, Repr

/-- Modelled from the spec: the operating-system side of `ZMapper` (`gc/z/zMapper_windows.cpp`
is not among the files embedded here).  `live` lists the mapping objects created and
not yet closed, `views` tells for an address whether it is a placeholder (`none`)
or a live mapping bound to a handle, `calls` is the trace of primitive calls. -/
structure ZMapper where
  live : List HANDLE
  views : Nat → Option HANDLE
  calls : List MapperCall

/-- Modelled from the spec: `ZMapper::create_and_commit_paging_file_mapping(size)`:
`create_mapping(size) -> handle|failure`.  The result is the head of the script of
creation results (0, the failure value, once the script is used up); a non-null
result is a mapping object that is live from now on. -/
def ZMapper.create_and_commit_paging_file_mapping (size : Nat) (script : List HANDLE)
    (m : ZMapper) : HANDLE × List HANDLE × ZMapper :=
  match script with
  | [] => (0, [], { m with calls := m.calls ++ [MapperCall.create size 0] })
  | r :: rest =>
    (r, rest,
      { m with
        live := if r = 0 then m.live else r :: m.live
        calls := m.calls ++ [MapperCall.create size r] })

/-- Modelled from the spec: `ZMapper::close_paging_file_mapping(handle)`: `destroy_mapping(handle)`,
treated as unconditionally successful. -/
def ZMapper.close_paging_file_mapping (handle : HANDLE) (m : ZMapper) : ZMapper :=
  { m with live := m.live.erase handle, calls := m.calls ++ [MapperCall.close handle] }

/-- Modelled from the spec: `ZMapper::map_view_replace_placeholder(handle, file_offset, addr, size)`:
`bind_placeholder`: replaces the placeholder at `addr` by a live mapping of the
handle; any failure is fatal, and binding fails when `addr` is not a placeholder. -/
def ZMapper.map_view_replace_placeholder (handle : HANDLE) (file_offset addr size : Nat)
    (m : ZMapper) : Exec ZMapper :=
  match m.views addr with
  | none =>
    .ok { m with
          views := fun a => if a = addr then some handle else m.views a
          calls := m.calls ++ [MapperCall.map_view handle file_offset addr size] }
  | some _ => .error Abort.fatal_mapper

/-- Modelled from the spec: `ZMapper::unmap_view_preserve_placeholder(addr, size)`:
`restore_placeholder`: unbinds the live mapping at `addr` and restores a
placeholder; any failure is fatal, and unbinding fails when nothing is mapped at
`addr`. -/
def ZMapper.unmap_view_preserve_placeholder (addr size : Nat) (m : ZMapper) : Exec ZMapper :=
  match m.views addr with
  | some _ =>
    .ok { m with
          views := fun a => if a = addr then none else m.views a
          calls := m.calls ++ [MapperCall.unmap_view addr size] }
  | none => .error Abort.fatal_mapper

/-! ## Small pages -/

/-- State of `ZPhysicalMemoryBackingSmallPages`: the member `_handles`, and the
state of the mapper it calls. -/
structure ZPhysicalMemoryBackingSmallPages where
  _handles : ZGranuleMap
  mapper : ZMapper

namespace ZPhysicalMemoryBackingSmallPages

/-- Embeds `ZPhysicalMemoryBackingSmallPages::get_handle`. -/
def get_handle (s : ZPhysicalMemoryBackingSmallPages) (offset : Nat) : Exec HANDLE :=
  let handle := s._handles.get offset
  if handle = 0 then .error Abort.assert_should_be_set else .ok handle

/-- Embeds `ZPhysicalMemoryBackingSmallPages::put_handle`. -/
def put_handle (s : ZPhysicalMemoryBackingSmallPages) (offset : Nat) (handle : HANDLE) :
    Exec ZPhysicalMemoryBackingSmallPages :=
  if handle = INVALID_HANDLE_VALUE then .error Abort.assert_invalid_handle
  else if s._handles.get offset ≠ 0 then .error Abort.assert_should_be_cleared
  else .ok { s with _handles := s._handles.put offset handle }

/-- Embeds `ZPhysicalMemoryBackingSmallPages::clear_handle`. -/
def clear_handle (s : ZPhysicalMemoryBackingSmallPages) (offset : Nat) :
    Exec ZPhysicalMemoryBackingSmallPages :=
  if s._handles.get offset = 0 then .error Abort.assert_should_be_set
  else .ok { s with _handles := s._handles.put offset 0 }

/-- The loop of `ZPhysicalMemoryBackingSmallPages::commit`, from counter `i` on;
the first argument bounds the number of iterations. -/
def commitLoop (sh offset size : Nat) :
    Nat → Nat → List HANDLE → ZPhysicalMemoryBackingSmallPages →
      Exec (Nat × ZPhysicalMemoryBackingSmallPages)
  | 0, _, _, _ => .error Abort.loop_guard
  | fuel + 1, i, script, s =>
    if i < size then
      match ZMapper.create_and_commit_paging_file_mapping (ZGranuleSize sh) script s.mapper with
      | (handle, rest, m) =>
        if handle = 0 then .ok (i, { s with mapper := m })
        else
          match put_handle { s with mapper := m } (offset + i) handle with
          | .error e => .error e
          | .ok s1 => commitLoop sh offset size fuel (i + ZGranuleSize sh) rest s1
    else .ok (size, s)

/-- Embeds `ZPhysicalMemoryBackingSmallPages::commit(offset, size)`; `script` holds the
results of the successive creations of mapping objects. -/
def commit (sh offset size : Nat) (script : List HANDLE) (s : ZPhysicalMemoryBackingSmallPages) :
    Exec (Nat × ZPhysicalMemoryBackingSmallPages) :=
  commitLoop sh offset size (size + 1) 0 script s

/-- The loop of `ZPhysicalMemoryBackingSmallPages::uncommit`, from counter `i` on. -/
def uncommitLoop (sh offset size : Nat) :
    Nat → Nat → ZPhysicalMemoryBackingSmallPages → Exec (Nat × ZPhysicalMemoryBackingSmallPages)
  | 0, _, _ => .error Abort.loop_guard
  | fuel + 1, i, s =>
    if i < size then
      match get_handle s (offset + i) with
      | .error e => .error e
      | .ok handle =>
        match clear_handle s (offset + i) with
        | .error e => .error e
        | .ok s1 =>
          uncommitLoop sh offset size fuel (i + ZGranuleSize sh)
            { s1 with mapper := ZMapper.close_paging_file_mapping handle s1.mapper }
    else .ok (size, s)

/-- Embeds `ZPhysicalMemoryBackingSmallPages::uncommit(offset, size)`. -/
def uncommit (sh offset size : Nat) (s : ZPhysicalMemoryBackingSmallPages) :
    Exec (Nat × ZPhysicalMemoryBackingSmallPages) :=
  uncommitLoop sh offset size (size + 1) 0 s

/-- The loop of `ZPhysicalMemoryBackingSmallPages::map`, from counter `i` on. -/
def mapLoop (sh addr size offset : Nat) :
    Nat → Nat → ZPhysicalMemoryBackingSmallPages → Exec ZPhysicalMemoryBackingSmallPages
  | 0, _, _ => .error Abort.loop_guard
  | fuel + 1, i, s =>
    if i < size then
      match get_handle s (offset + i) with
      | .error e => .error e
      | .ok handle =>
        match ZMapper.map_view_replace_placeholder handle 0 (addr + i) (ZGranuleSize sh)
            s.mapper with
        | .error e => .error e
        | .ok m => mapLoop sh addr size offset fuel (i + ZGranuleSize sh) { s with mapper := m }
    else .ok s

/-- Embeds `ZPhysicalMemoryBackingSmallPages::map(addr, size, offset)`. -/
def map (sh addr size offset : Nat) (s : ZPhysicalMemoryBackingSmallPages) :
    Exec ZPhysicalMemoryBackingSmallPages :=
  if !is_aligned offset (ZGranuleSize sh) then .error Abort.assert_misaligned
  else if !is_aligned addr (ZGranuleSize sh) then .error Abort.assert_misaligned
  else if !is_aligned size (ZGranuleSize sh) then .error Abort.assert_misaligned
  else mapLoop sh addr size offset (size + 1) 0 s

/-- The loop of `ZPhysicalMemoryBackingSmallPages::unmap`, from counter `i` on. -/
def unmapLoop (sh addr size : Nat) :
    Nat → Nat → ZPhysicalMemoryBackingSmallPages → Exec ZPhysicalMemoryBackingSmallPages
  | 0, _, _ => .error Abort.loop_guard
  | fuel + 1, i, s =>
    if i < size then
      match ZMapper.unmap_view_preserve_placeholder (addr + i) (ZGranuleSize sh) s.mapper with
      | .error e => .error e
      | .ok m => unmapLoop sh addr size fuel (i + ZGranuleSize sh) { s with mapper := m }
    else .ok s

/-- Embeds `ZPhysicalMemoryBackingSmallPages::unmap(addr, size)`. -/
def unmap (sh addr size : Nat) (s : ZPhysicalMemoryBackingSmallPages) :
    Exec ZPhysicalMemoryBackingSmallPages :=
  if !is_aligned addr (ZGranuleSize sh) then .error Abort.assert_misaligned
  else if !is_aligned size (ZGranuleSize sh) then .error Abort.assert_misaligned
  else unmapLoop sh addr size (size + 1) 0 s

end ZPhysicalMemoryBackingSmallPages

/-! ## Large pages -/

/-- One call of the AWE part of the Windows API made by the large-pages
strategy.  `index` is the position of the slice `&_page_array[index]` passed to
the call (`none` for the null pointer), `npages` the requested page count, and
`npages_res`, `res` what the call wrote back and returned. -/
inductive AweCall where
  | allocate (index npages npages_res : Nat) (res : Bool)
  | free (index npages npages_res : Nat) (res : Bool)
  | map_pages (addr npages : Nat) (index : Option Nat) (res : Bool)
  deriving DecidableEq, Repr

/-- State of `ZPhysicalMemoryBackingLargePages`.  The strategy never reads or
writes an entry of `_page_array` itself: it only passes slices of it to the AWE
calls, so the state observable from the code is the trace of those calls. -/
structure ZPhysicalMemoryBackingLargePages where
  calls : List AweCall
  deriving DecidableEq, Repr

namespace ZPhysicalMemoryBackingLargePages

/-- Embeds `ZPhysicalMemoryBackingLargePages::commit(offset, size)`.  `res` and
`npages_res` are what `AllocateUserPhysicalPages` returns and writes back; the
returned `npages_res << ZGranuleSizeShift` is a 64-bit `size_t`. -/
def commit (sh offset size : Nat) (res : Bool) (npages_res : Nat)
    (l : ZPhysicalMemoryBackingLargePages) : Exec (Nat × ZPhysicalMemoryBackingLargePages) :=
  let index := offset >>> sh
  let npages := size >>> sh
  let l1 : ZPhysicalMemoryBackingLargePages :=
    { calls := l.calls ++ [AweCall.allocate index npages npages_res res] }
  if !res then .error Abort.fatal_allocate
  else .ok ((npages_res <<< sh) % 2 ^ 64, l1)

/-- Embeds `ZPhysicalMemoryBackingLargePages::uncommit(offset, size)`.  `res` and
`npages_res` are what `FreeUserPhysicalPages` returns and writes back; the
returned `npages_res << ZGranuleSizeShift` is a 64-bit `size_t`. -/
def uncommit (sh offset size : Nat) (res : Bool) (npages_res : Nat)
    (l : ZPhysicalMemoryBackingLargePages) : Exec (Nat × ZPhysicalMemoryBackingLargePages) :=
  let index := offset >>> sh
  let npages := size >>> sh
  let l1 : ZPhysicalMemoryBackingLargePages :=
    { calls := l.calls ++ [AweCall.free index npages npages_res res] }
  if !res then .error Abort.fatal_uncommit
  else .ok ((npages_res <<< sh) % 2 ^ 64, l1)

/-- Embeds `ZPhysicalMemoryBackingLargePages::map(addr, size, offset)`; `res` is the
result of `MapUserPhysicalPages`. -/
def map (sh addr size offset : Nat) (res : Bool) (l : ZPhysicalMemoryBackingLargePages) :
    Exec ZPhysicalMemoryBackingLargePages :=
  let npages := size >>> sh
  let index := offset >>> sh
  let l1 : ZPhysicalMemoryBackingLargePages :=
    { calls := l.calls ++ [AweCall.map_pages addr npages (some index) res] }
  if !res then .error Abort.fatal_map_view
  else .ok l1

/-- Embeds `ZPhysicalMemoryBackingLargePages::unmap(addr, size)`; `res` is the result of
`MapUserPhysicalPages` called with the null page array. -/
def unmap (sh addr size : Nat) (res : Bool) (l : ZPhysicalMemoryBackingLargePages) :
    Exec ZPhysicalMemoryBackingLargePages :=
  let npages := size >>> sh
  let l1 : ZPhysicalMemoryBackingLargePages :=
    { calls := l.calls ++ [AweCall.map_pages addr npages none res] }
  if !res then .error Abort.fatal_unmap_view
  else .ok l1

end ZPhysicalMemoryBackingLargePages

/-! ## The facade -/

/-- What the operating system answers during one call of the backing: the
results of the successive creations of mapping objects (small pages), and the
result and returned page count of the AWE call (large pages). -/
structure OsReplies where
  creations : List HANDLE
  awe_res : Bool
  awe_npages : Nat

/-- The two implementations of `ZPhysicalMemoryBackingImpl`. -/
inductive ZPhysicalMemoryBackingImpl where
  | small (s : ZPhysicalMemoryBackingSmallPages)
  | large (l : ZPhysicalMemoryBackingLargePages)

/-- The virtual call `_impl->commit(offset, size)`. -/
def ZPhysicalMemoryBackingImpl.commit (sh offset size : Nat) (os : OsReplies) :
    ZPhysicalMemoryBackingImpl → Exec (Nat × ZPhysicalMemoryBackingImpl)
  | .small s =>
    match ZPhysicalMemoryBackingSmallPages.commit sh offset size os.creations s with
    | .ok (n, s1) => .ok (n, .small s1)
    | .error e => .error e
  | .large l =>
    match ZPhysicalMemoryBackingLargePages.commit sh offset size os.awe_res os.awe_npages l with
    | .ok (n, l1) => .ok (n, .large l1)
    | .error e => .error e

/-- The virtual call `_impl->uncommit(offset, size)`. -/
def ZPhysicalMemoryBackingImpl.uncommit (sh offset size : Nat) (os : OsReplies) :
    ZPhysicalMemoryBackingImpl → Exec (Nat × ZPhysicalMemoryBackingImpl)
  | .small s =>
    match ZPhysicalMemoryBackingSmallPages.uncommit sh offset size s with
    | .ok (n, s1) => .ok (n, .small s1)
    | .error e => .error e
  | .large l =>
    match ZPhysicalMemoryBackingLargePages.uncommit sh offset size os.awe_res os.awe_npages l with
    | .ok (n, l1) => .ok (n, .large l1)
    | .error e => .error e

/-- The virtual call `_impl->map(addr, size, offset)`. -/
def ZPhysicalMemoryBackingImpl.map (sh addr size offset : Nat) (os : OsReplies) :
    ZPhysicalMemoryBackingImpl → Exec ZPhysicalMemoryBackingImpl
  | .small s =>
    match ZPhysicalMemoryBackingSmallPages.map sh addr size offset s with
    | .ok s1 => .ok (.small s1)
    | .error e => .error e
  | .large l =>
    match ZPhysicalMemoryBackingLargePages.map sh addr size offset os.awe_res l with
    | .ok l1 => .ok (.large l1)
    | .error e => .error e

/-- The virtual call `_impl->unmap(addr, size)`. -/
def ZPhysicalMemoryBackingImpl.unmap (sh addr size : Nat) (os : OsReplies) :
    ZPhysicalMemoryBackingImpl → Exec ZPhysicalMemoryBackingImpl
  | .small s =>
    match ZPhysicalMemoryBackingSmallPages.unmap sh addr size s with
    | .ok s1 => .ok (.small s1)
    | .error e => .error e
  | .large l =>
    match ZPhysicalMemoryBackingLargePages.unmap sh addr size os.awe_res l with
    | .ok l1 => .ok (.large l1)
    | .error e => .error e

/-- Embeds `select_impl(max_capacity)`: the large-pages strategy when
`ZLargePages::is_enabled()` (the parameter `large_pages_enabled`), the small-pages
strategy otherwise.  The small-pages strategy starts with an empty granule map;
`m` is the state of the mapper at construction. -/
def select_impl (large_pages_enabled : Bool) (m : ZMapper) : ZPhysicalMemoryBackingImpl :=
  if large_pages_enabled then .large { calls := [] }
  else .small { _handles := ZGranuleMap.empty, mapper := m }

/-- Embeds `ZPhysicalMemoryBacking::commit(offset, length, numa_id)`; `numa_id` is
ignored by the code and has no counterpart here. -/
def ZPhysicalMemoryBacking.commit (sh offset length : Nat) (os : OsReplies)
    (impl : ZPhysicalMemoryBackingImpl) : Exec (Nat × ZPhysicalMemoryBackingImpl) :=
  ZPhysicalMemoryBackingImpl.commit sh offset length os impl

/-- Embeds `ZPhysicalMemoryBacking::uncommit(offset, length)`. -/
def ZPhysicalMemoryBacking.uncommit (sh offset length : Nat) (os : OsReplies)
    (impl : ZPhysicalMemoryBackingImpl) : Exec (Nat × ZPhysicalMemoryBackingImpl) :=
  ZPhysicalMemoryBackingImpl.uncommit sh offset length os impl

/-- Embeds `ZPhysicalMemoryBacking::map(addr, size, offset)`. -/
def ZPhysicalMemoryBacking.map (sh addr size offset : Nat) (os : OsReplies)
    (impl : ZPhysicalMemoryBackingImpl) : Exec ZPhysicalMemoryBackingImpl :=
  if !is_aligned offset (ZGranuleSize sh) then .error Abort.assert_misaligned
  else if !is_aligned addr (ZGranuleSize sh) then .error Abort.assert_misaligned
  else if !is_aligned size (ZGranuleSize sh) then .error Abort.assert_misaligned
  else ZPhysicalMemoryBackingImpl.map sh addr size offset os impl

/-- Embeds `ZPhysicalMemoryBacking::unmap(addr, size)`. -/
def ZPhysicalMemoryBacking.unmap (sh addr size : Nat) (os : OsReplies)
    (impl : ZPhysicalMemoryBackingImpl) : Exec ZPhysicalMemoryBackingImpl :=
  if !is_aligned addr (ZGranuleSize sh) then .error Abort.assert_misaligned
  else if !is_aligned size (ZGranuleSize sh) then .error Abort.assert_misaligned
  else ZPhysicalMemoryBackingImpl.unmap sh addr size os impl

/-! ## States described in closed form, and the invariant -/

/-- A created handle is usable: neither the failure value 0 nor
INVALID_HANDLE_VALUE. -/
def validHandle (h : HANDLE) : Prop := h ≠ 0 ∧ h ≠ INVALID_HANDLE_VALUE

instance (h : HANDLE) : Decidable (validHandle h) := by
  unfold validHandle; infer_instance

/-- The mapper after one more creation that failed. -/
def ZMapper.failedCreate (G : Nat) (m : ZMapper) : ZMapper :=
  { m with calls := m.calls ++ [MapperCall.create G 0] }

/-- Erase the elements of `hs`, one after the other, from a list. -/
def eraseEach (l : List HANDLE) : List HANDLE → List HANDLE
  | [] => l
  | h :: hs => eraseEach (l.erase h) hs

namespace ZPhysicalMemoryBackingSmallPages

/-- The state reached from `s` when the mapping objects `hs` have been created
one after the other and registered at the offsets `o`, `o + G`, `o + 2 * G`, ... -/
def registered (G : Nat) :
    Nat → List HANDLE → ZPhysicalMemoryBackingSmallPages → ZPhysicalMemoryBackingSmallPages
  | _, [], s => s
  | o, h :: hs, s =>
    registered G (o + G) hs
      { _handles := s._handles.put o h
        mapper := { s.mapper with
                    live := h :: s.mapper.live
                    calls := s.mapper.calls ++ [MapperCall.create G h] } }

/-- The state after a commit that created and registered `hs` and then met a
failed creation. -/
def shortCommitted (G offset : Nat) (hs : List HANDLE) (s : ZPhysicalMemoryBackingSmallPages) :
    ZPhysicalMemoryBackingSmallPages :=
  { registered G offset hs s with
    mapper := ZMapper.failedCreate G (registered G offset hs s).mapper }

/-- The state reached from `s` when the handles `hs`, registered at the offsets
`o`, `o + G`, `o + 2 * G`, ..., have been cleared and closed one after the other. -/
def closed (G : Nat) :
    Nat → List HANDLE → ZPhysicalMemoryBackingSmallPages → ZPhysicalMemoryBackingSmallPages
  | _, [], s => s
  | o, h :: hs, s =>
    closed G (o + G) hs
      { _handles := s._handles.put o 0
        mapper := ZMapper.close_paging_file_mapping h s.mapper }

/-- What a caller can observe of the outcome of a small-pages commit: the
returned byte count, the store, and the mapping objects that are live. -/
def observe (r : Nat × ZPhysicalMemoryBackingSmallPages) : Nat × ZGranuleMap × List HANDLE :=
  (r.1, r.2._handles, r.2.mapper.live)

/-- A granule is committed in the small-pages strategy when its slot of the store
holds a non-null handle: the store is the only record of commitment the strategy
keeps. -/
def committed (s : ZPhysicalMemoryBackingSmallPages) (offset : Nat) : Prop :=
  s._handles.get offset ≠ 0

instance (s : ZPhysicalMemoryBackingSmallPages) (offset : Nat) :
    Decidable (committed s offset) := by
  unfold committed; infer_instance

/-- The state reached from `s` when the `n` granules at the addresses `a`,
`a + G`, ... have been bound, one after the other, to the handles stored at the
offsets `o`, `o + G`, ... -/
def mapped (G : Nat) :
    Nat → Nat → Nat → ZPhysicalMemoryBackingSmallPages → ZPhysicalMemoryBackingSmallPages
  | _, _, 0, s => s
  | a, o, n + 1, s =>
    mapped G (a + G) (o + G) n
      { s with
        mapper := { s.mapper with
                    views := fun x => if x = a then some (s._handles o) else s.mapper.views x
                    calls := s.mapper.calls ++ [MapperCall.map_view (s._handles o) 0 a G] } }

/-- The state reached from `s` when the `n` granules at the addresses `a`,
`a + G`, ... have been unbound, one after the other. -/
def unmapped (G : Nat) :
    Nat → Nat → ZPhysicalMemoryBackingSmallPages → ZPhysicalMemoryBackingSmallPages
  | _, 0, s => s
  | a, n + 1, s =>
    unmapped G (a + G) n
      { s with
        mapper := { s.mapper with
                    views := fun x => if x = a then none else s.mapper.views x
                    calls := s.mapper.calls ++ [MapperCall.unmap_view a G] } }

end ZPhysicalMemoryBackingSmallPages

/-- The creations of one commit return fresh handles: each successful creation
(non-null result) returns a handle that is not a live mapping object at that
moment.  A commit makes no creation after one that failed, so nothing is asked of
the script beyond its first failure. -/
def freshCreations : List HANDLE → List HANDLE → Prop
  | _, [] => True
  | live, r :: rs => r = 0 ∨ (r ∉ live ∧ freshCreations (r :: live) rs)

/-- The effect of one mapper call on the list of mapping objects created and not
yet closed: a successful creation adds its handle, a close removes the handle,
binding and unbinding a view change nothing. -/
def liveAfter (live : List HANDLE) : MapperCall → List HANDLE
  | .create _ result => if result = 0 then live else result :: live
  | .close handle => live.erase handle
  | .map_view _ _ _ _ => live
  | .unmap_view _ _ => live

/-- The mapping objects created and not yet closed by a trace of mapper calls. -/
def createdNotClosed (calls : List MapperCall) : List HANDLE := calls.foldl liveAfter []

/-- The no-leak invariant of the small-pages strategy: the live mapping objects
are listed once each, a handle is live exactly when it is a non-null handle held
in some slot of the store, and no non-null handle is held in two slots. -/
structure NoLeak (s : ZPhysicalMemoryBackingSmallPages) : Prop where
  live_nodup : s.mapper.live.Nodup
  live_iff : ∀ h, h ∈ s.mapper.live ↔ h ≠ 0 ∧ ∃ o, s._handles.get o = h
  distinct : ∀ o1 o2,
    s._handles.get o1 ≠ 0 → s._handles.get o1 = s._handles.get o2 → o1 = o2

/-- The states of the small-pages strategy reachable from the empty store (no
mapper call made yet, no live mapping object, any placeholders and views) by calls
of commit, uncommit, map and unmap that return, the creations of every commit
returning fresh handles. -/
inductive Reachable (sh : Nat) : ZPhysicalMemoryBackingSmallPages → Prop where
  | init (views : Nat → Option HANDLE) :
      Reachable sh ⟨ZGranuleMap.empty, ⟨[], views, []⟩⟩
  | commit {s s1 : ZPhysicalMemoryBackingSmallPages} (offset size n : Nat)
      (script : List HANDLE) :
      Reachable sh s → freshCreations s.mapper.live script →
      s.commit sh offset size script = .ok (n, s1) → Reachable sh s1
  | uncommit {s s1 : ZPhysicalMemoryBackingSmallPages} (offset size n : Nat) :
      Reachable sh s → s.uncommit sh offset size = .ok (n, s1) → Reachable sh s1
  | map {s s1 : ZPhysicalMemoryBackingSmallPages} (addr size offset : Nat) :
      Reachable sh s → s.map sh addr size offset = .ok s1 → Reachable sh s1
  | unmap {s s1 : ZPhysicalMemoryBackingSmallPages} (addr size : Nat) :
      Reachable sh s → s.unmap sh addr size = .ok s1 → Reachable sh s1

/-! # Lemmas and theorems -/

theorem ZGranuleSize_pos (sh : Nat) : 0 < ZGranuleSize sh := by
  unfold ZGranuleSize
  rw [Nat.one_shiftLeft]
  exact Nat.two_pow_pos sh

theorem commitLoop_creates (sh offset size : Nat) (rest : List HANDLE) :
    ∀ (hs : List HANDLE) (f i : Nat) (s : ZPhysicalMemoryBackingSmallPages),
      (∀ h ∈ hs, validHandle h) →
      (∀ j, j < hs.length → s._handles (offset + i + j * ZGranuleSize sh) = 0) →
      (∀ j, j < hs.length → i + j * ZGranuleSize sh < size) →
      s.commitLoop sh offset size (hs.length + f) i (hs ++ rest)
        = ZPhysicalMemoryBackingSmallPages.commitLoop sh offset size f
            (i + hs.length * ZGranuleSize sh) rest
            (ZPhysicalMemoryBackingSmallPages.registered (ZGranuleSize sh) (offset + i) hs s) := by
  intro hs
  induction hs with
  | nil => intro f i s _ _ _; simp [ZPhysicalMemoryBackingSmallPages.registered]
  | cons h hs ih =>
    intro f i s hv hz hlt
    have hG := ZGranuleSize_pos sh
    have hi : i < size := by simpa using hlt 0 (by simp)
    have hh : validHandle h := hv h (by simp)
    have h0 : s._handles (offset + i) = 0 := by simpa using hz 0 (by simp)
    have e1 : (h :: hs).length + f = (hs.length + f) + 1 := by simp; omega
    rw [e1]
    simp only [ZPhysicalMemoryBackingSmallPages.commitLoop, hi, if_true, List.cons_append,
      ZMapper.create_and_commit_paging_file_mapping, hh.1, if_false,
      ZPhysicalMemoryBackingSmallPages.put_handle, hh.2, ZGranuleMap.get, h0, ne_eq, not_true]
    rw [ih]
    · simp [ZPhysicalMemoryBackingSmallPages.registered, Nat.add_assoc, Nat.add_mul, Nat.add_comm,
        Nat.add_left_comm]
    · intro x hx; exact hv x (by simp [hx])
    · intro j hj
      have := hz (j + 1) (by simpa using hj)
      simp only [ZGranuleMap.put]
      rw [if_neg (by omega)]
      rw [← this]; congr 1; ring
    · intro j hj
      have := hlt (j + 1) (by simpa using hj)
      calc i + ZGranuleSize sh + j * ZGranuleSize sh = i + (j + 1) * ZGranuleSize sh := by ring
        _ < size := this

theorem registered_handles_other (G : Nat) :
    ∀ (hs : List HANDLE) (o : Nat) (s : ZPhysicalMemoryBackingSmallPages) (x : Nat),
      (∀ j, j < hs.length → x ≠ o + j * G) →
      (ZPhysicalMemoryBackingSmallPages.registered G o hs s)._handles x = s._handles x := by
  intro hs
  induction hs with
  | nil => intro o s x _; rfl
  | cons h hs ih =>
    intro o s x hx
    simp only [ZPhysicalMemoryBackingSmallPages.registered]
    rw [ih]
    · have := hx 0 (by simp)
      simp only [ZGranuleMap.put]
      rw [if_neg (by simpa using this)]
    · intro j hj
      have := hx (j + 1) (by simpa using hj)
      intro e; apply this; rw [e]; ring

theorem registered_handles_at (G : Nat) (hG : 0 < G) :
    ∀ (hs : List HANDLE) (o : Nat) (s : ZPhysicalMemoryBackingSmallPages) (j : Nat) (hj : j
        < hs.length),
      (ZPhysicalMemoryBackingSmallPages.registered G o hs s)._handles (o + j * G) = hs[j] := by
  intro hs
  induction hs with
  | nil => intro o s j hj; simp at hj
  | cons h hs ih =>
    intro o s j hj
    simp only [ZPhysicalMemoryBackingSmallPages.registered]
    cases j with
    | zero =>
      rw [registered_handles_other]
      · simp [ZGranuleMap.put]
      · intro j _
        have : 0 < (j + 1) * G := Nat.mul_pos (Nat.succ_pos j) hG
        have e : o + G + j * G = o + (j + 1) * G := by ring
        omega
    | succ j =>
      have e : o + (j + 1) * G = o + G + j * G := by ring
      rw [e, ih (o + G) _ j (by simpa using hj)]
      simp

theorem registered_live (G : Nat) :
    ∀ (hs : List HANDLE) (o : Nat) (s : ZPhysicalMemoryBackingSmallPages),
      (ZPhysicalMemoryBackingSmallPages.registered G o hs s).mapper.live = hs.reverse
          ++ s.mapper.live := by
  intro hs
  induction hs with
  | nil => intro o s; rfl
  | cons h hs ih => intro o s; simp [ZPhysicalMemoryBackingSmallPages.registered, ih]

theorem registered_calls (G : Nat) :
    ∀ (hs : List HANDLE) (o : Nat) (s : ZPhysicalMemoryBackingSmallPages),
      (ZPhysicalMemoryBackingSmallPages.registered G o hs s).mapper.calls
        = s.mapper.calls ++ hs.map (MapperCall.create G) := by
  intro hs
  induction hs with
  | nil => intro o s; simp [ZPhysicalMemoryBackingSmallPages.registered]
  | cons h hs ih => intro o s; simp [ZPhysicalMemoryBackingSmallPages.registered, ih]

theorem registered_views (G : Nat) :
    ∀ (hs : List HANDLE) (o : Nat) (s : ZPhysicalMemoryBackingSmallPages),
      (ZPhysicalMemoryBackingSmallPages.registered G o hs s).mapper.views = s.mapper.views := by
  intro hs
  induction hs with
  | nil => intro o s; rfl
  | cons h hs ih => intro o s; simp [ZPhysicalMemoryBackingSmallPages.registered, ih]

theorem commit_short_eq (sh offset N : Nat) (hs rest : List HANDLE)
    (s : ZPhysicalMemoryBackingSmallPages)
    (hk : hs.length < N) (hvalid : ∀ h ∈ hs, validHandle h)
    (hfree : ∀ j, j < hs.length → s._handles (offset + j * ZGranuleSize sh) = 0) :
    s.commit sh offset (N * ZGranuleSize sh) (hs ++ 0 :: rest)
      = .ok (hs.length * ZGranuleSize sh,
             ZPhysicalMemoryBackingSmallPages.shortCommitted (ZGranuleSize sh) offset hs s) := by
  have hG := ZGranuleSize_pos sh
  have hlt : ∀ j, j < N → j * ZGranuleSize sh < N * ZGranuleSize sh := fun j hj =>
    Nat.mul_lt_mul_of_pos_right hj hG
  have hfuel : N * ZGranuleSize sh + 1 = hs.length + (N * ZGranuleSize sh - hs.length + 1) := by
    have : N ≤ N * ZGranuleSize sh := Nat.le_mul_of_pos_right N hG
    omega
  unfold ZPhysicalMemoryBackingSmallPages.commit
  rw [hfuel, commitLoop_creates sh offset (N * ZGranuleSize sh) (0 :: rest) hs _ 0 s hvalid
    (by intro j hj; simpa using hfree j hj)
    (by intro j hj; simpa using hlt j (by omega))]
  have h1 : 0 + hs.length * ZGranuleSize sh < N * ZGranuleSize sh := by
    simpa using hlt _ hk
  simp only [ZPhysicalMemoryBackingSmallPages.commitLoop, h1, if_true,
    ZMapper.create_and_commit_paging_file_mapping]
  simp [ZPhysicalMemoryBackingSmallPages.shortCommitted, ZMapper.failedCreate]

theorem commit_full_eq (sh offset N : Nat) (hs rest : List HANDLE)
    (s : ZPhysicalMemoryBackingSmallPages)
    (hlen : hs.length = N) (hvalid : ∀ h ∈ hs, validHandle h)
    (hfree : ∀ j, j < N → s._handles (offset + j * ZGranuleSize sh) = 0) :
    s.commit sh offset (N * ZGranuleSize sh) (hs ++ rest)
      = .ok (N * ZGranuleSize sh, ZPhysicalMemoryBackingSmallPages.registered
          (ZGranuleSize sh) offset hs s) := by
  have hG := ZGranuleSize_pos sh
  have hlt : ∀ j, j < N → j * ZGranuleSize sh < N * ZGranuleSize sh := fun j hj =>
    Nat.mul_lt_mul_of_pos_right hj hG
  have hfuel : N * ZGranuleSize sh + 1 = hs.length + (N * ZGranuleSize sh - hs.length + 1) := by
    have : N ≤ N * ZGranuleSize sh := Nat.le_mul_of_pos_right N hG
    omega
  unfold ZPhysicalMemoryBackingSmallPages.commit
  rw [hfuel, commitLoop_creates sh offset (N * ZGranuleSize sh) rest hs _ 0 s hvalid
    (by intro j hj; simpa using hfree j (by omega))
    (by intro j hj; simpa using hlt j (by omega))]
  simp [ZPhysicalMemoryBackingSmallPages.commitLoop, hlen]

/-- C1. Small pages, partial commit.  Take a request of `N` granules at `offset`
whose granules are all uncommitted in `s`, and let the creation of mapping objects
succeed for the first `k - 1` granules (with the handles `hs`) and fail at the
`k`-th, `1 ≤ k ≤ N`.  Then `commit` returns exactly `(k - 1) * ZGranuleSize`; the
handles `hs` are registered, in order, at `offset`, `offset + G`, ...,
`offset + (k - 2) * G` and every other slot of the store is as before, so that
no handle is registered for granule `k` or beyond; and the creations attempted
are the `k - 1` successful ones followed by the failed one, and no other. -/
theorem small_commit_stops_at_failed_creation (sh offset N k : Nat) (hs rest : List HANDLE)
    (s : ZPhysicalMemoryBackingSmallPages) (hk1 : 1 ≤ k) (hkN : k ≤ N) (hlen : hs.length = k - 1)
    (hvalid : ∀ h ∈ hs, validHandle h)
    (hfree : ∀ j, j < N → s._handles (offset + j * ZGranuleSize sh) = 0) :
    ∃ s1 : ZPhysicalMemoryBackingSmallPages,
      s.commit sh offset (N * ZGranuleSize sh) (hs ++ 0 :: rest)
        = .ok ((k - 1) * ZGranuleSize sh, s1) ∧
      (∀ j (hj : j < hs.length), s1._handles (offset + j * ZGranuleSize sh) = hs[j]) ∧
      (∀ o, (∀ j, j < k - 1 → o ≠ offset + j * ZGranuleSize sh) → s1._handles o = s._handles o) ∧
      (∀ j, k - 1 ≤ j → j < N → s1._handles (offset + j * ZGranuleSize sh) = 0) ∧
      s1.mapper.calls = s.mapper.calls ++ hs.map (MapperCall.create (ZGranuleSize sh))
        ++ [MapperCall.create (ZGranuleSize sh) 0] ∧
      s1.mapper.live = hs.reverse ++ s.mapper.live := by
  have hG := ZGranuleSize_pos sh
  refine ⟨ZPhysicalMemoryBackingSmallPages.shortCommitted (ZGranuleSize sh) offset hs s, ?_, ?_, ?_,
      ?_, ?_, ?_⟩
  · rw [← hlen]
    exact commit_short_eq sh offset N hs rest s (by omega) hvalid
      (fun j hj => hfree j (by omega))
  · intro j hj
    exact registered_handles_at _ hG hs offset s j hj
  · intro o ho
    exact registered_handles_other _ hs offset s o (by rw [hlen]; exact ho)
  · intro j hj1 hj2
    have : (ZPhysicalMemoryBackingSmallPages.shortCommitted (ZGranuleSize sh) offset hs s)._handles
        (offset + j * ZGranuleSize sh) = s._handles (offset + j * ZGranuleSize sh) := by
      refine registered_handles_other _ hs offset s _ ?_
      intro t ht e
      have h1 : j * ZGranuleSize sh = t * ZGranuleSize sh := by omega
      have h2 : j = t := Nat.eq_of_mul_eq_mul_right hG h1
      omega
    rw [this]; exact hfree j hj2
  · simp [ZPhysicalMemoryBackingSmallPages.shortCommitted, ZMapper.failedCreate, registered_calls]
  · simp [ZPhysicalMemoryBackingSmallPages.shortCommitted, ZMapper.failedCreate, registered_live]

/-- Witness of C1: three granules of size 2 requested at offset 0 of the empty
store, creation failing at the third (`k = 3`). -/
theorem small_commit_stops_at_failed_creation_witness :
    ∃ s1 : ZPhysicalMemoryBackingSmallPages,
      ZPhysicalMemoryBackingSmallPages.commit 1 0 (3 * ZGranuleSize 1) ([5, 7] ++ 0 :: [9])
          ⟨ZGranuleMap.empty, ⟨[], fun _ => none, []⟩⟩
        = .ok ((3 - 1) * ZGranuleSize 1, s1) ∧
      (∀ j (hj : j < [5, 7].length), s1._handles (0 + j * ZGranuleSize 1) = [5, 7][j]) ∧
      (∀ o, (∀ j, j < 3 - 1 → o ≠ 0 + j * ZGranuleSize 1) →
        s1._handles o = ZGranuleMap.empty o) ∧
      (∀ j, 3 - 1 ≤ j → j < 3 → s1._handles (0 + j * ZGranuleSize 1) = 0) ∧
      s1.mapper.calls = [] ++ [5, 7].map (MapperCall.create (ZGranuleSize 1))
        ++ [MapperCall.create (ZGranuleSize 1) 0] ∧
      s1.mapper.live = [5, 7].reverse ++ [] :=
  small_commit_stops_at_failed_creation 1 0 3 3 [5, 7] [9]
    ⟨ZGranuleMap.empty, ⟨[], fun _ => none, []⟩⟩ (by decide) (by decide) rfl
    (by decide) (fun _ _ => rfl)

theorem uncommitLoop_closes (sh offset size : Nat) :
    ∀ (hs : List HANDLE) (f i : Nat) (s : ZPhysicalMemoryBackingSmallPages),
      (∀ h ∈ hs, h ≠ 0) →
      (∀ j (hj : j < hs.length), s._handles (offset + i + j * ZGranuleSize sh) = hs[j]) →
      (∀ j, j < hs.length → i + j * ZGranuleSize sh < size) →
      s.uncommitLoop sh offset size (hs.length + f) i
        = ZPhysicalMemoryBackingSmallPages.uncommitLoop sh offset size f
            (i + hs.length * ZGranuleSize sh)
            (ZPhysicalMemoryBackingSmallPages.closed (ZGranuleSize sh) (offset + i) hs s) := by
  intro hs
  induction hs with
  | nil => intro f i s _ _ _; simp [ZPhysicalMemoryBackingSmallPages.closed]
  | cons h hs ih =>
    intro f i s hv hz hlt
    have hG := ZGranuleSize_pos sh
    have hi : i < size := by simpa using hlt 0 (by simp)
    have hh : h ≠ 0 := hv h (by simp)
    have h0 : s._handles (offset + i) = h := by simpa using hz 0 (by simp)
    have e1 : (h :: hs).length + f = (hs.length + f) + 1 := by simp; omega
    rw [e1]
    simp only [ZPhysicalMemoryBackingSmallPages.uncommitLoop, hi, if_true,
        ZPhysicalMemoryBackingSmallPages.get_handle,
      ZPhysicalMemoryBackingSmallPages.clear_handle, ZGranuleMap.get, h0, hh, if_false]
    rw [ih]
    · simp [ZPhysicalMemoryBackingSmallPages.closed, Nat.add_assoc, Nat.add_mul, Nat.add_comm,
        Nat.add_left_comm]
    · intro x hx; exact hv x (by simp [hx])
    · intro j hj
      have := hz (j + 1) (by simpa using hj)
      simp only [ZGranuleMap.put]
      rw [if_neg (by omega)]
      simp only [List.getElem_cons_succ] at this
      rw [← this]; congr 1; ring
    · intro j hj
      have := hlt (j + 1) (by simpa using hj)
      calc i + ZGranuleSize sh + j * ZGranuleSize sh = i + (j + 1) * ZGranuleSize sh := by ring
        _ < size := this

theorem closed_handles_other (G : Nat) :
    ∀ (hs : List HANDLE) (o : Nat) (s : ZPhysicalMemoryBackingSmallPages) (x : Nat),
      (∀ j, j < hs.length → x ≠ o + j * G) →
      (ZPhysicalMemoryBackingSmallPages.closed G o hs s)._handles x = s._handles x := by
  intro hs
  induction hs with
  | nil => intro o s x _; rfl
  | cons h hs ih =>
    intro o s x hx
    simp only [ZPhysicalMemoryBackingSmallPages.closed]
    rw [ih]
    · have := hx 0 (by simp)
      simp only [ZGranuleMap.put]
      rw [if_neg (by simpa using this)]
    · intro j hj
      have := hx (j + 1) (by simpa using hj)
      intro e; apply this; rw [e]; ring

theorem closed_handles_at (G : Nat) (hG : 0 < G) :
    ∀ (hs : List HANDLE) (o : Nat) (s : ZPhysicalMemoryBackingSmallPages) (j : Nat), j < hs.length →
      (ZPhysicalMemoryBackingSmallPages.closed G o hs s)._handles (o + j * G) = 0 := by
  intro hs
  induction hs with
  | nil => intro o s j hj; simp at hj
  | cons h hs ih =>
    intro o s j hj
    simp only [ZPhysicalMemoryBackingSmallPages.closed]
    cases j with
    | zero =>
      rw [closed_handles_other]
      · simp [ZGranuleMap.put]
      · intro j _
        have : 0 < (j + 1) * G := Nat.mul_pos (Nat.succ_pos j) hG
        have e : o + G + j * G = o + (j + 1) * G := by ring
        omega
    | succ j =>
      have e : o + (j + 1) * G = o + G + j * G := by ring
      rw [e, ih (o + G) _ j (by simpa using hj)]

theorem closed_live (G : Nat) :
    ∀ (hs : List HANDLE) (o : Nat) (s : ZPhysicalMemoryBackingSmallPages),
      (ZPhysicalMemoryBackingSmallPages.closed G o hs s).mapper.live = eraseEach s.mapper.live hs :=
          by
  intro hs
  induction hs with
  | nil => intro o s; rfl
  | cons h hs ih =>
    intro o s; simp [ZPhysicalMemoryBackingSmallPages.closed, ih, eraseEach,
        ZMapper.close_paging_file_mapping]

theorem closed_calls (G : Nat) :
    ∀ (hs : List HANDLE) (o : Nat) (s : ZPhysicalMemoryBackingSmallPages),
      (ZPhysicalMemoryBackingSmallPages.closed G o hs s).mapper.calls = s.mapper.calls
          ++ hs.map MapperCall.close := by
  intro hs
  induction hs with
  | nil => intro o s; simp [ZPhysicalMemoryBackingSmallPages.closed]
  | cons h hs ih =>
    intro o s; simp [ZPhysicalMemoryBackingSmallPages.closed, ih, ZMapper.close_paging_file_mapping]

theorem closed_views (G : Nat) :
    ∀ (hs : List HANDLE) (o : Nat) (s : ZPhysicalMemoryBackingSmallPages),
      (ZPhysicalMemoryBackingSmallPages.closed G o hs s).mapper.views = s.mapper.views := by
  intro hs
  induction hs with
  | nil => intro o s; rfl
  | cons h hs ih =>
    intro o s; simp [ZPhysicalMemoryBackingSmallPages.closed, ih, ZMapper.close_paging_file_mapping]

theorem eraseEach_perm_append :
    ∀ (hs p l : List HANDLE), p.Perm hs → eraseEach (p ++ l) hs = l := by
  intro hs
  induction hs with
  | nil =>
    intro p l hp
    have : p = [] := List.Perm.eq_nil hp
    simp [this, eraseEach]
  | cons h hs ih =>
    intro p l hp
    have hmem : h ∈ p := hp.symm.subset (by simp)
    simp only [eraseEach]
    rw [List.erase_append_left _ hmem]
    apply ih
    have := hp.erase h
    simpa using this

theorem uncommit_full_eq (sh offset N : Nat) (hs : List HANDLE)
    (s : ZPhysicalMemoryBackingSmallPages)
    (hlen : hs.length = N) (hnz : ∀ h ∈ hs, h ≠ 0)
    (hat : ∀ j (hj : j < hs.length), s._handles (offset + j * ZGranuleSize sh) = hs[j]) :
    s.uncommit sh offset (N * ZGranuleSize sh)
      = .ok (N * ZGranuleSize sh, ZPhysicalMemoryBackingSmallPages.closed
          (ZGranuleSize sh) offset hs s) := by
  have hG := ZGranuleSize_pos sh
  have hlt : ∀ j, j < N → j * ZGranuleSize sh < N * ZGranuleSize sh := fun j hj =>
    Nat.mul_lt_mul_of_pos_right hj hG
  have hfuel : N * ZGranuleSize sh + 1 = hs.length + (N * ZGranuleSize sh - hs.length + 1) := by
    have : N ≤ N * ZGranuleSize sh := Nat.le_mul_of_pos_right N hG
    omega
  unfold ZPhysicalMemoryBackingSmallPages.uncommit
  rw [hfuel, uncommitLoop_closes sh offset (N * ZGranuleSize sh) hs _ 0 s hnz
    (by intro j hj; simpa using hat j hj)
    (by intro j hj; simpa using hlt j (by omega))]
  simp [ZPhysicalMemoryBackingSmallPages.uncommitLoop, hlen]

theorem granules_shiftRight (sh N : Nat) : (N * ZGranuleSize sh) >>> sh = N := by
  unfold ZGranuleSize
  rw [Nat.one_shiftLeft, Nat.shiftRight_eq_div_pow]
  exact Nat.mul_div_cancel N (Nat.two_pow_pos sh)

theorem granules_shiftLeft (sh N : Nat) : N <<< sh = N * ZGranuleSize sh := by
  unfold ZGranuleSize
  rw [Nat.one_shiftLeft, Nat.shiftLeft_eq]

theorem commitLoop_observe_congr (sh offset size : Nat) :
    ∀ (fuel i : Nat) (script : List HANDLE) (s t : ZPhysicalMemoryBackingSmallPages),
      s._handles = t._handles → s.mapper.live = t.mapper.live →
      (s.commitLoop sh offset size fuel i script).map ZPhysicalMemoryBackingSmallPages.observe
        =
            (t.commitLoop sh offset size fuel i script).map ZPhysicalMemoryBackingSmallPages.observe :=
            by
  intro fuel
  induction fuel with
  | zero => intro i script s t _ _; rfl
  | succ fuel ih =>
    intro i script s t hh hl
    simp only [ZPhysicalMemoryBackingSmallPages.commitLoop]
    by_cases hi : i < size
    · simp only [hi, if_true]
      cases script with
      | nil =>
        simp [ZMapper.create_and_commit_paging_file_mapping, Except.map,
            ZPhysicalMemoryBackingSmallPages.observe, hh, hl]
      | cons r rest =>
        simp only [ZMapper.create_and_commit_paging_file_mapping]
        by_cases hr : r = 0
        · simp [hr, Except.map, ZPhysicalMemoryBackingSmallPages.observe, hh, hl]
        · simp only [hr, if_false, ZPhysicalMemoryBackingSmallPages.put_handle, ZGranuleMap.get, hh]
          by_cases hinv : r = INVALID_HANDLE_VALUE
          · simp [hinv, Except.map]
          · simp only [hinv, if_false]
            by_cases hc : t._handles (offset + i) = 0
            · simp only [hc, ne_eq, not_true, if_false]
              exact ih _ _ _ _ (by simp [hh]) (by simp [hl])
            · simp [hc, Except.map]
    · simp [hi, Except.map, ZPhysicalMemoryBackingSmallPages.observe, hh, hl]

/-- C2. Commit followed at once by uncommit of the same range of `N` granules,
with no resource exhaustion.
Small pages: when the range starts uncommitted in `s` and the `N` creations all
succeed (with the handles `hs`), both calls return `N * ZGranuleSize`, and
afterwards the store is the store of `s`, the live mapping objects and the views
are those of `s`, and the mapper calls made are the `N` creations followed by one
close for each created handle, in the same order; for every script of creation
results, a commit of the range in the final state has the same observable outcome
(abort, or returned size, store and live objects) as in `s`.
Large pages: when the size `N * ZGranuleSize` fits in `size_t` and the pool
reports success and the full count `N` for both calls, both return
`N * ZGranuleSize`, and the two AWE calls made are the allocation and
the release of the same `N` pages of the same slice, and for every answer of the
pool a commit of the range in the final state has the same outcome (abort, or
returned size) as in the initial state.  (The store of handles belongs to the
small-pages strategy; the large-pages strategy keeps no metadata that its code
reads or writes: the entries of `_page_array` are filled and used by the AWE
calls only.) -/
theorem commit_then_uncommit_restores (sh offset N : Nat) :
    (∀ (hs rest : List HANDLE) (s : ZPhysicalMemoryBackingSmallPages),
      hs.length = N → (∀ h ∈ hs, validHandle h) →
      (∀ j, j < N → s._handles (offset + j * ZGranuleSize sh) = 0) →
      ∃ s1 s2 : ZPhysicalMemoryBackingSmallPages,
        s.commit sh offset (N * ZGranuleSize sh) (hs ++ rest)
          = .ok (N * ZGranuleSize sh, s1) ∧
        s1.uncommit sh offset (N * ZGranuleSize sh)
          = .ok (N * ZGranuleSize sh, s2) ∧
        s2._handles = s._handles ∧
        s2.mapper.live = s.mapper.live ∧
        s2.mapper.views = s.mapper.views ∧
        s2.mapper.calls = s.mapper.calls ++ hs.map (MapperCall.create (ZGranuleSize sh))
          ++ hs.map MapperCall.close ∧
        ∀ script : List HANDLE,
          (s2.commit sh offset (N * ZGranuleSize sh) script).map
              ZPhysicalMemoryBackingSmallPages.observe
            = (s.commit sh offset (N * ZGranuleSize sh) script).map
                ZPhysicalMemoryBackingSmallPages.observe) ∧
    (N * ZGranuleSize sh < 2 ^ 64 → ∀ l : ZPhysicalMemoryBackingLargePages,
      ∃ l1 l2 : ZPhysicalMemoryBackingLargePages,
        l.commit sh offset (N * ZGranuleSize sh) true N
          = .ok (N * ZGranuleSize sh, l1) ∧
        l1.uncommit sh offset (N * ZGranuleSize sh) true N
          = .ok (N * ZGranuleSize sh, l2) ∧
        l2.calls = l.calls ++ [AweCall.allocate (offset >>> sh) N N true,
          AweCall.free (offset >>> sh) N N true] ∧
        ∀ (res : Bool) (npages_res : Nat),
          (l2.commit sh offset (N * ZGranuleSize sh) res npages_res).map (·.1)
            = (l.commit sh offset (N * ZGranuleSize sh) res npages_res).map (·.1)) := by
  have hG := ZGranuleSize_pos sh
  constructor
  · intro hs rest s hlen hvalid hfree
    have hhandles : (ZPhysicalMemoryBackingSmallPages.closed (ZGranuleSize sh) offset hs
        (ZPhysicalMemoryBackingSmallPages.registered (ZGranuleSize sh) offset hs s))._handles
            = s._handles := by
      funext x
      by_cases hx : ∃ j, j < hs.length ∧ x = offset + j * ZGranuleSize sh
      · obtain ⟨j, hj, rfl⟩ := hx
        rw [closed_handles_at _ hG hs offset _ j hj]
        exact (hfree j (by omega)).symm
      · have hx2 : ∀ j, j < hs.length → x ≠ offset + j * ZGranuleSize sh :=
          fun j hj e => hx ⟨j, hj, e⟩
        rw [closed_handles_other _ hs offset _ x hx2, registered_handles_other _ hs offset s x hx2]
    have hlive : (ZPhysicalMemoryBackingSmallPages.closed (ZGranuleSize sh) offset hs
        (ZPhysicalMemoryBackingSmallPages.registered (ZGranuleSize sh) offset hs s)).mapper.live
            = s.mapper.live := by
      rw [closed_live, registered_live]
      exact eraseEach_perm_append hs hs.reverse s.mapper.live (List.reverse_perm hs)
    refine ⟨ZPhysicalMemoryBackingSmallPages.registered (ZGranuleSize sh) offset hs s,
      ZPhysicalMemoryBackingSmallPages.closed (ZGranuleSize sh) offset hs
        (ZPhysicalMemoryBackingSmallPages.registered (ZGranuleSize sh) offset hs s), ?_, ?_,
            hhandles, hlive, ?_, ?_, ?_⟩
    · exact commit_full_eq sh offset N hs rest s hlen hvalid hfree
    · exact uncommit_full_eq sh offset N hs _ hlen (fun h hh => (hvalid h hh).1)
        (fun j hj => registered_handles_at _ hG hs offset s j hj)
    · rw [closed_views, registered_views]
    · rw [closed_calls, registered_calls]
    · intro script
      exact commitLoop_observe_congr sh offset _ _ 0 script _ s hhandles hlive
  · intro hfit l
    refine ⟨⟨l.calls ++ [AweCall.allocate (offset >>> sh) N N true]⟩,
      ⟨l.calls ++ [AweCall.allocate (offset >>> sh) N N true,
        AweCall.free (offset >>> sh) N N true]⟩, ?_, ?_, rfl, ?_⟩
    · simp only [ZPhysicalMemoryBackingLargePages.commit, granules_shiftLeft, granules_shiftRight,
        Nat.mod_eq_of_lt hfit]
      rfl
    · simp only [ZPhysicalMemoryBackingLargePages.uncommit, granules_shiftLeft, granules_shiftRight,
        Nat.mod_eq_of_lt hfit]
      simp
    · intro res npages_res
      cases res <;> simp [ZPhysicalMemoryBackingLargePages.commit, Except.map]

/-- Witness of C2: two granules of size 2 at offset 0, from the empty store and
from the empty trace of AWE calls. -/
theorem commit_then_uncommit_restores_witness :
    (∃ s1 s2 : ZPhysicalMemoryBackingSmallPages,
        ZPhysicalMemoryBackingSmallPages.commit 1 0 (2 * ZGranuleSize 1) ([5, 7] ++ [])
            ⟨ZGranuleMap.empty, ⟨[], fun _ => none, []⟩⟩
          = .ok (2 * ZGranuleSize 1, s1) ∧
        s1.uncommit 1 0 (2 * ZGranuleSize 1) = .ok (2 * ZGranuleSize 1, s2) ∧
        s2._handles = ZGranuleMap.empty ∧
        s2.mapper.live = [] ∧
        s2.mapper.calls = [MapperCall.create 2 5, MapperCall.create 2 7,
          MapperCall.close 5, MapperCall.close 7]) ∧
    (∃ l1 l2 : ZPhysicalMemoryBackingLargePages,
        ZPhysicalMemoryBackingLargePages.commit 1 0 (2 * ZGranuleSize 1) true 2 ⟨[]⟩
            = .ok (2 * ZGranuleSize 1, l1) ∧
        l1.uncommit 1 0 (2 * ZGranuleSize 1) true 2
          = .ok (2 * ZGranuleSize 1, l2) ∧
        l2.calls = [AweCall.allocate 0 2 2 true, AweCall.free 0 2 2 true]) := by
  have h := commit_then_uncommit_restores 1 0 2
  constructor
  · obtain ⟨s1, s2, h1, h2, h3, h4, _, h6, _⟩ :=
      h.1 [5, 7] [] ⟨ZGranuleMap.empty, ⟨[], fun _ => none, []⟩⟩ rfl (by decide)
        (fun _ _ => rfl)
    exact ⟨s1, s2, h1, h2, h3, h4, h6⟩
  · obtain ⟨l1, l2, h1, h2, h3, _⟩ := h.2 (by decide) ⟨[]⟩
    exact ⟨l1, l2, h1, h2, h3⟩

theorem commitLoop_double (sh offset size : Nat) (rest : List HANDLE) :
    ∀ (j : Nat) (hs : List HANDLE) (f i : Nat) (s : ZPhysicalMemoryBackingSmallPages),
      hs.length = j + 1 → (∀ h ∈ hs, h ≠ 0) →
      s._handles (offset + i + j * ZGranuleSize sh) ≠ 0 →
      i + j * ZGranuleSize sh < size →
      ∃ e, s.commitLoop sh offset size (j + 1 + f) i (hs ++ rest) = .error e ∧
        e.isAssert = true ∧ ((∀ h ∈ hs, validHandle h) → e = Abort.assert_should_be_cleared) := by
  intro j
  induction j with
  | zero =>
    intro hs f i s hlen hnz hc hlt
    match hs, hlen with
    | [h], _ =>
      have hh : h ≠ 0 := hnz h (by simp)
      have hi : i < size := by simpa using hlt
      have hc0 : s._handles (offset + i) ≠ 0 := by simpa using hc
      have e1 : 0 + 1 + f = f + 1 := by omega
      rw [e1]
      simp only [ZPhysicalMemoryBackingSmallPages.commitLoop, hi, if_true, List.cons_append,
          List.nil_append,
        ZMapper.create_and_commit_paging_file_mapping, hh, if_false,
            ZPhysicalMemoryBackingSmallPages.put_handle,
        ZGranuleMap.get]
      by_cases hinv : h = INVALID_HANDLE_VALUE
      · refine ⟨Abort.assert_invalid_handle, by simp [hinv], rfl, ?_⟩
        intro hv
        exact absurd hinv (hv h (by simp)).2
      · exact ⟨Abort.assert_should_be_cleared, by simp [hinv, hc0], rfl, fun _ => rfl⟩
  | succ j ih =>
    intro hs f i s hlen hnz hc hlt
    have hG := ZGranuleSize_pos sh
    match hs, hlen with
    | h :: t, hlen =>
      have hh : h ≠ 0 := hnz h (by simp)
      have hi : i < size := by
        have : i ≤ i + (j + 1) * ZGranuleSize sh := Nat.le_add_right _ _
        omega
      have ht : t.length = j + 1 := by simpa using hlen
      have e1 : j + 1 + 1 + f = (j + 1 + f) + 1 := by omega
      rw [e1]
      simp only [ZPhysicalMemoryBackingSmallPages.commitLoop, hi, if_true, List.cons_append,
        ZMapper.create_and_commit_paging_file_mapping, hh, if_false,
            ZPhysicalMemoryBackingSmallPages.put_handle,
        ZGranuleMap.get]
      by_cases hinv : h = INVALID_HANDLE_VALUE
      · refine ⟨Abort.assert_invalid_handle, by simp [hinv], rfl, ?_⟩
        intro hv
        exact absurd hinv (hv h (by simp)).2
      · by_cases hc0 : s._handles (offset + i) = 0
        · simp only [hinv, if_false, hc0, ne_eq, not_true]
          have hmul : (j + 1) * ZGranuleSize sh = ZGranuleSize sh + j * ZGranuleSize sh := by ring
          obtain ⟨e, he, ha, hv⟩ := ih t f (i + ZGranuleSize sh)
            { _handles := s._handles.put (offset + i) h
              mapper := { s.mapper with
                          live := h :: s.mapper.live
                          calls := s.mapper.calls ++ [MapperCall.create (ZGranuleSize sh) h] } }
            ht (fun x hx => hnz x (by simp [hx]))
            (by
              simp only [ZGranuleMap.put]
              rw [if_neg (by omega)]
              have e2 : offset + (i + ZGranuleSize sh) + j * ZGranuleSize sh
                  = offset + i + (j + 1) * ZGranuleSize sh := by ring
              rw [e2]; exact hc)
            (by omega)
          exact ⟨e, he, ha, fun hall => hv (fun x hx => hall x (by simp [hx]))⟩
        · exact ⟨Abort.assert_should_be_cleared, by simp [hinv, hc0], rfl, fun _ => rfl⟩

theorem uncommitLoop_missing (sh offset size : Nat) :
    ∀ (j f i : Nat) (s : ZPhysicalMemoryBackingSmallPages),
      s._handles (offset + i + j * ZGranuleSize sh) = 0 →
      i + j * ZGranuleSize sh < size →
      s.uncommitLoop sh offset size (j + 1 + f) i
        = .error Abort.assert_should_be_set := by
  intro j
  induction j with
  | zero =>
    intro f i s hc hlt
    have hi : i < size := by simpa using hlt
    have hc0 : s._handles (offset + i) = 0 := by simpa using hc
    have e1 : 0 + 1 + f = f + 1 := by omega
    rw [e1]
    simp [ZPhysicalMemoryBackingSmallPages.uncommitLoop, hi,
        ZPhysicalMemoryBackingSmallPages.get_handle, ZGranuleMap.get, hc0]
  | succ j ih =>
    intro f i s hc hlt
    have hG := ZGranuleSize_pos sh
    have hi : i < size := by
      have : i ≤ i + (j + 1) * ZGranuleSize sh := Nat.le_add_right _ _
      omega
    have e1 : j + 1 + 1 + f = (j + 1 + f) + 1 := by omega
    rw [e1]
    simp only [ZPhysicalMemoryBackingSmallPages.uncommitLoop, hi, if_true,
        ZPhysicalMemoryBackingSmallPages.get_handle,
      ZPhysicalMemoryBackingSmallPages.clear_handle, ZGranuleMap.get]
    by_cases hc0 : s._handles (offset + i) = 0
    · simp [hc0]
    · simp only [hc0, if_false]
      have hmul : (j + 1) * ZGranuleSize sh = ZGranuleSize sh + j * ZGranuleSize sh := by ring
      apply ih
      · simp only [ZGranuleMap.put]
        rw [if_neg (by omega)]
        have e2 : offset + (i + ZGranuleSize sh) + j * ZGranuleSize sh
            = offset + i + (j + 1) * ZGranuleSize sh := by ring
        rw [e2]; exact hc
      · omega

theorem small_commit_double (sh offset N j : Nat) (hs rest : List HANDLE)
    (s : ZPhysicalMemoryBackingSmallPages)
    (hj : j < N) (hlen : hs.length = j + 1) (hnz : ∀ h ∈ hs, h ≠ 0)
    (hc : s._handles (offset + j * ZGranuleSize sh) ≠ 0) :
    ∃ e, s.commit sh offset (N * ZGranuleSize sh) (hs ++ rest) = .error e ∧
      e.isAssert = true ∧ ((∀ h ∈ hs, validHandle h) → e = Abort.assert_should_be_cleared) := by
  have hG := ZGranuleSize_pos sh
  have hlt : j * ZGranuleSize sh < N * ZGranuleSize sh := Nat.mul_lt_mul_of_pos_right hj hG
  have hfuel : N * ZGranuleSize sh + 1 = j + 1 + (N * ZGranuleSize sh - j) := by
    have : N ≤ N * ZGranuleSize sh := Nat.le_mul_of_pos_right N hG
    omega
  unfold ZPhysicalMemoryBackingSmallPages.commit
  rw [hfuel]
  exact commitLoop_double sh offset _ rest j hs _ 0 s hlen hnz (by simpa using hc)
    (by simpa using hlt)

theorem small_uncommit_missing (sh offset N j : Nat) (s : ZPhysicalMemoryBackingSmallPages)
    (hj : j < N) (hc : s._handles (offset + j * ZGranuleSize sh) = 0) :
    s.uncommit sh offset (N * ZGranuleSize sh)
      = .error Abort.assert_should_be_set := by
  have hG := ZGranuleSize_pos sh
  have hlt : j * ZGranuleSize sh < N * ZGranuleSize sh := Nat.mul_lt_mul_of_pos_right hj hG
  have hfuel : N * ZGranuleSize sh + 1 = j + 1 + (N * ZGranuleSize sh - j) := by
    have : N ≤ N * ZGranuleSize sh := Nat.le_mul_of_pos_right N hG
    omega
  unfold ZPhysicalMemoryBackingSmallPages.uncommit
  rw [hfuel]
  exact uncommitLoop_missing sh offset _ j _ 0 s (by simpa using hc) (by simpa using hlt)

theorem uncommit_committed_range (sh offset N : Nat) (s : ZPhysicalMemoryBackingSmallPages)
    (hc : ∀ j, j < N → s._handles (offset + j * ZGranuleSize sh) ≠ 0) :
    ∃ s2 : ZPhysicalMemoryBackingSmallPages,
      s.uncommit sh offset (N * ZGranuleSize sh) = .ok (N * ZGranuleSize sh, s2) ∧
      (∀ j, j < N → s2._handles (offset + j * ZGranuleSize sh) = 0) ∧
      (∀ o, (∀ j, j < N → o ≠ offset + j * ZGranuleSize sh) → s2._handles o = s._handles o) := by
  have hG := ZGranuleSize_pos sh
  let hs : List HANDLE := (List.range N).map (fun j => s._handles (offset + j * ZGranuleSize sh))
  have hlen : hs.length = N := by simp [hs]
  refine ⟨ZPhysicalMemoryBackingSmallPages.closed (ZGranuleSize sh) offset hs s, ?_, ?_, ?_⟩
  · refine uncommit_full_eq sh offset N hs s hlen ?_ ?_
    · intro h hh
      simp only [hs, List.mem_map, List.mem_range] at hh
      obtain ⟨j, hj, rfl⟩ := hh
      exact hc j hj
    · intro j hj
      simp [hs]
  · intro j hj
    exact closed_handles_at _ hG hs offset s j (by omega)
  · intro o ho
    exact closed_handles_other _ hs offset s o (by rw [hlen]; exact ho)

/-- C3. Small pages: the store slot of a granule holds a non-null handle exactly
while the granule is committed, and breaking this is a fatal assertion failure.
For a range of `N` granules at `offset` in a state `s`:
(1) when no granule of the range is committed and the `N` creations succeed,
commit returns and afterwards every granule of the range is committed;
(2) when the creations for the granules `0 .. j` succeed (return non-null
handles) and granule `j` of the range is already committed, commit does not
return: it ends in a failed assertion, which is "Should be cleared" when the
created handles are valid;
(3) when every granule of the range is committed, uncommit returns and afterwards
no granule of the range is committed;
(4) when some granule of the range is not committed, uncommit does not return:
it ends in the failed assertion "Should be set". -/
theorem small_commit_state_violation_is_fatal (sh offset N : Nat)
    (s : ZPhysicalMemoryBackingSmallPages) :
    (∀ hs rest : List HANDLE, hs.length = N → (∀ h ∈ hs, validHandle h) →
      (∀ j, j < N → ¬ s.committed (offset + j * ZGranuleSize sh)) →
      ∃ s1 : ZPhysicalMemoryBackingSmallPages,
        s.commit sh offset (N * ZGranuleSize sh) (hs ++ rest)
          = .ok (N * ZGranuleSize sh, s1) ∧
        ∀ j, j < N → s1.committed (offset + j * ZGranuleSize sh)) ∧
    (∀ (j : Nat) (hs rest : List HANDLE), j < N → hs.length = j + 1 → (∀ h ∈ hs, h ≠ 0) →
      s.committed (offset + j * ZGranuleSize sh) →
      ∃ e, s.commit sh offset (N * ZGranuleSize sh) (hs ++ rest) = .error e ∧
        e.isAssert = true ∧
        ((∀ h ∈ hs, validHandle h) → e = Abort.assert_should_be_cleared)) ∧
    ((∀ j, j < N → s.committed (offset + j * ZGranuleSize sh)) →
      ∃ s2 : ZPhysicalMemoryBackingSmallPages,
        s.uncommit sh offset (N * ZGranuleSize sh)
          = .ok (N * ZGranuleSize sh, s2) ∧
        ∀ j, j < N → ¬ s2.committed (offset + j * ZGranuleSize sh)) ∧
    (∀ j, j < N → ¬ s.committed (offset + j * ZGranuleSize sh) →
      s.uncommit sh offset (N * ZGranuleSize sh)
        = .error Abort.assert_should_be_set) := by
  have hG := ZGranuleSize_pos sh
  refine ⟨?_, ?_, ?_, ?_⟩
  · intro hs rest hlen hvalid hfree
    refine ⟨_, commit_full_eq sh offset N hs rest s hlen hvalid
      (fun j hj => by simpa [ZPhysicalMemoryBackingSmallPages.committed,
          ZGranuleMap.get] using hfree j hj), ?_⟩
    intro j hj
    have hj2 : j < hs.length := by omega
    simp only [ZPhysicalMemoryBackingSmallPages.committed, ZGranuleMap.get]
    rw [registered_handles_at _ hG hs offset s j hj2]
    exact (hvalid _ (List.getElem_mem _)).1
  · intro j hs rest hj hlen hnz hc
    exact small_commit_double sh offset N j hs rest s hj hlen hnz hc
  · intro hc
    obtain ⟨s2, h1, h2, _⟩ := uncommit_committed_range sh offset N s hc
    exact ⟨s2, h1, fun j hj => by simp [ZPhysicalMemoryBackingSmallPages.committed, ZGranuleMap.get,
        h2 j hj]⟩
  · intro j hj hc
    exact small_uncommit_missing sh offset N j s hj
      (by simpa [ZPhysicalMemoryBackingSmallPages.committed, ZGranuleMap.get] using hc)

/-- Witness of C3: granule size 2, the store holding the handle 5 at offset 0 and
nothing else.  Committing the two granules at offset 0 aborts although the
creation succeeds; uncommitting them aborts because the granule at offset 2 is
not committed. -/
theorem small_commit_state_violation_is_fatal_witness :
    (∃ e, ZPhysicalMemoryBackingSmallPages.commit 1 0 (2 * ZGranuleSize 1) ([9] ++ [11])
        ⟨ZGranuleMap.put ZGranuleMap.empty 0 5, ⟨[5], fun _ => none, []⟩⟩ = .error e ∧
      e.isAssert = true ∧
      ((∀ h ∈ [9], validHandle h) → e = Abort.assert_should_be_cleared)) ∧
    ZPhysicalMemoryBackingSmallPages.uncommit 1 0 (2 * ZGranuleSize 1)
        ⟨ZGranuleMap.put ZGranuleMap.empty 0 5, ⟨[5], fun _ => none, []⟩⟩
      = .error Abort.assert_should_be_set :=
  ⟨(small_commit_state_violation_is_fatal 1 0 2
      ⟨ZGranuleMap.put ZGranuleMap.empty 0 5, ⟨[5], fun _ => none, []⟩⟩).2.1
      0 [9] [11] (by decide) rfl (by decide) (by decide),
   (small_commit_state_violation_is_fatal 1 0 2
      ⟨ZGranuleMap.put ZGranuleMap.empty 0 5, ⟨[5], fun _ => none, []⟩⟩).2.2.2
      1 (by decide) (by decide)⟩

/-- Counterexample to C4 as stated.  With large pages selected (granule size 2)
and every AWE call reporting success: the granule at offset 0 is committed, then
committed a second time, and then the granule at offset 4, which was never
committed, is uncommitted; all three calls of the facade return normally. -/
theorem large_pages_accept_double_commit :
    ZPhysicalMemoryBacking.commit 1 0 2 ⟨[], true, 1⟩ (select_impl true ⟨[], fun _ => none, []⟩)
      = .ok (2, .large ⟨[AweCall.allocate 0 1 1 true]⟩) ∧
    ZPhysicalMemoryBacking.commit 1 0 2 ⟨[], true, 1⟩ (.large ⟨[AweCall.allocate 0 1 1 true]⟩)
      = .ok (2, .large ⟨[AweCall.allocate 0 1 1 true, AweCall.allocate 0 1 1 true]⟩) ∧
    ZPhysicalMemoryBacking.uncommit 1 4 2 ⟨[], true, 1⟩
        (.large ⟨[AweCall.allocate 0 1 1 true, AweCall.allocate 0 1 1 true]⟩)
      = .ok (2, .large ⟨[AweCall.allocate 0 1 1 true, AweCall.allocate 0 1 1 true,
          AweCall.free 2 1 1 true]⟩) :=
  ⟨rfl, rfl, rfl⟩

/-- C4, amended.  The commit state of a granule is checked by the small-pages
strategy only.  Through the facade with small pages selected, commit of a range
containing an already-committed granule (the creations up to that granule
succeeding) and uncommit of a range containing an uncommitted granule end in a
failed assertion.  With large pages selected no commit state is consulted: for
every state, offset and size, commit and uncommit return normally, with the page
count reported by the pool converted to bytes (as a `size_t`), whenever the AWE
call reports success, and are fatal exactly when it reports failure. -/
theorem facade_commit_state_check (sh offset N : Nat) :
    (∀ (s : ZPhysicalMemoryBackingSmallPages) (os : OsReplies) (j : Nat) (hs rest : List HANDLE),
      os.creations = hs ++ rest → j < N → hs.length = j + 1 → (∀ h ∈ hs, h ≠ 0) →
      s.committed (offset + j * ZGranuleSize sh) →
      ∃ e, ZPhysicalMemoryBacking.commit sh offset (N * ZGranuleSize sh) os (.small s)
          = .error e ∧ e.isAssert = true) ∧
    (∀ (s : ZPhysicalMemoryBackingSmallPages) (os : OsReplies) (j : Nat), j < N →
      ¬ s.committed (offset + j * ZGranuleSize sh) →
      ZPhysicalMemoryBacking.uncommit sh offset (N * ZGranuleSize sh) os (.small s)
        = .error Abort.assert_should_be_set) ∧
    (∀ (l : ZPhysicalMemoryBackingLargePages) (os : OsReplies) (size : Nat),
      ZPhysicalMemoryBacking.commit sh offset size os (.large l)
        = if os.awe_res then
            .ok ((os.awe_npages <<< sh) % 2 ^ 64, .large ⟨l.calls ++
              [AweCall.allocate (offset >>> sh) (size >>> sh) os.awe_npages true]⟩)
          else .error Abort.fatal_allocate) ∧
    (∀ (l : ZPhysicalMemoryBackingLargePages) (os : OsReplies) (size : Nat),
      ZPhysicalMemoryBacking.uncommit sh offset size os (.large l)
        = if os.awe_res then
            .ok ((os.awe_npages <<< sh) % 2 ^ 64, .large ⟨l.calls ++
              [AweCall.free (offset >>> sh) (size >>> sh) os.awe_npages true]⟩)
          else .error Abort.fatal_uncommit) := by
  refine ⟨?_, ?_, ?_, ?_⟩
  · intro s os j hs rest hos hj hlen hnz hc
    obtain ⟨e, he, ha, _⟩ := small_commit_double sh offset N j hs rest s hj hlen hnz hc
    refine ⟨e, ?_, ha⟩
    simp [ZPhysicalMemoryBacking.commit, ZPhysicalMemoryBackingImpl.commit, hos, he]
  · intro s os j hj hc
    have := small_uncommit_missing sh offset N j s hj
      (by simpa [ZPhysicalMemoryBackingSmallPages.committed, ZGranuleMap.get] using hc)
    simp [ZPhysicalMemoryBacking.uncommit, ZPhysicalMemoryBackingImpl.uncommit, this]
  · intro l os size
    cases h : os.awe_res <;>
      simp [ZPhysicalMemoryBacking.commit, ZPhysicalMemoryBackingImpl.commit,
        ZPhysicalMemoryBackingLargePages.commit, h]
  · intro l os size
    cases h : os.awe_res <;>
      simp [ZPhysicalMemoryBacking.uncommit, ZPhysicalMemoryBackingImpl.uncommit,
        ZPhysicalMemoryBackingLargePages.uncommit, h]

/-- Witness of the amended C4: granule size 2; with small pages and the handle 5
stored at offset 0, commit of the two granules at offset 0 aborts and so does
uncommit (offset 2 is not committed); with large pages the second commit of the
granule at offset 0 returns 2. -/
theorem facade_commit_state_check_witness :
    (∃ e, ZPhysicalMemoryBacking.commit 1 0 (2 * ZGranuleSize 1) ⟨[9, 11], true, 0⟩
        (.small ⟨ZGranuleMap.put ZGranuleMap.empty 0 5, ⟨[5], fun _ => none, []⟩⟩) = .error e ∧
      e.isAssert = true) ∧
    ZPhysicalMemoryBacking.uncommit 1 0 (2 * ZGranuleSize 1) ⟨[], true, 0⟩
        (.small ⟨ZGranuleMap.put ZGranuleMap.empty 0 5, ⟨[5], fun _ => none, []⟩⟩)
      = .error Abort.assert_should_be_set ∧
    ZPhysicalMemoryBacking.commit 1 0 2 ⟨[], true, 1⟩ (.large ⟨[AweCall.allocate 0 1 1 true]⟩)
      = .ok (2, .large ⟨[AweCall.allocate 0 1 1 true, AweCall.allocate 0 1 1 true]⟩) :=
  ⟨(facade_commit_state_check 1 0 2).1
      ⟨ZGranuleMap.put ZGranuleMap.empty 0 5, ⟨[5], fun _ => none, []⟩⟩ ⟨[9, 11], true, 0⟩
      0 [9] [11] rfl (by decide) rfl (by decide) (by decide),
   (facade_commit_state_check 1 0 2).2.1
      ⟨ZGranuleMap.put ZGranuleMap.empty 0 5, ⟨[5], fun _ => none, []⟩⟩ ⟨[], true, 0⟩
      1 (by decide) (by decide),
   (facade_commit_state_check 1 0 2).2.2.1 ⟨[AweCall.allocate 0 1 1 true]⟩ ⟨[], true, 1⟩ 2⟩

theorem mapLoop_binds (sh addr size offset : Nat) :
    ∀ (n f i : Nat) (s : ZPhysicalMemoryBackingSmallPages),
      (∀ j, j < n → s._handles (offset + i + j * ZGranuleSize sh) ≠ 0) →
      (∀ j, j < n → s.mapper.views (addr + i + j * ZGranuleSize sh) = none) →
      (∀ j, j < n → i + j * ZGranuleSize sh < size) →
      s.mapLoop sh addr size offset (n + f) i
        = ZPhysicalMemoryBackingSmallPages.mapLoop sh addr size offset f (i + n * ZGranuleSize sh)
            (ZPhysicalMemoryBackingSmallPages.mapped (ZGranuleSize sh) (addr + i)
                (offset + i) n s) := by
  intro n
  induction n with
  | zero => intro f i s _ _ _; simp [ZPhysicalMemoryBackingSmallPages.mapped]
  | succ n ih =>
    intro f i s hc hp hlt
    have hG := ZGranuleSize_pos sh
    have hi : i < size := by simpa using hlt 0 (by simp)
    have hc0 : s._handles (offset + i) ≠ 0 := by simpa using hc 0 (by simp)
    have hp0 : s.mapper.views (addr + i) = none := by simpa using hp 0 (by simp)
    have e1 : n + 1 + f = (n + f) + 1 := by omega
    rw [e1]
    simp only [ZPhysicalMemoryBackingSmallPages.mapLoop, hi, if_true,
        ZPhysicalMemoryBackingSmallPages.get_handle, ZGranuleMap.get, hc0,
      if_false, ZMapper.map_view_replace_placeholder, hp0]
    rw [ih]
    · simp [ZPhysicalMemoryBackingSmallPages.mapped, Nat.add_assoc, Nat.add_mul, Nat.add_comm,
        Nat.add_left_comm]
    · intro j hj
      have := hc (j + 1) (by omega)
      have e2 : offset + (i + ZGranuleSize sh) + j * ZGranuleSize sh
          = offset + i + (j + 1) * ZGranuleSize sh := by ring
      rw [e2]; exact this
    · intro j hj
      have := hp (j + 1) (by omega)
      have e2 : addr + (i + ZGranuleSize sh) + j * ZGranuleSize sh
          = addr + i + (j + 1) * ZGranuleSize sh := by ring
      have hmul : (j + 1) * ZGranuleSize sh = ZGranuleSize sh + j * ZGranuleSize sh := by ring
      simp only
      rw [if_neg (by omega), e2]; exact this
    · intro j hj
      have := hlt (j + 1) (by omega)
      calc i + ZGranuleSize sh + j * ZGranuleSize sh = i + (j + 1) * ZGranuleSize sh := by ring
        _ < size := this

theorem unmapLoop_unbinds (sh addr size : Nat) :
    ∀ (n f i : Nat) (s : ZPhysicalMemoryBackingSmallPages),
      (∀ j, j < n → s.mapper.views (addr + i + j * ZGranuleSize sh) ≠ none) →
      (∀ j, j < n → i + j * ZGranuleSize sh < size) →
      s.unmapLoop sh addr size (n + f) i
        = ZPhysicalMemoryBackingSmallPages.unmapLoop sh addr size f (i + n * ZGranuleSize sh)
            (ZPhysicalMemoryBackingSmallPages.unmapped (ZGranuleSize sh) (addr + i) n s) := by
  intro n
  induction n with
  | zero => intro f i s _ _; simp [ZPhysicalMemoryBackingSmallPages.unmapped]
  | succ n ih =>
    intro f i s hp hlt
    have hG := ZGranuleSize_pos sh
    have hi : i < size := by simpa using hlt 0 (by simp)
    have hp0 : s.mapper.views (addr + i) ≠ none := by simpa using hp 0 (by simp)
    obtain ⟨h, hh⟩ := Option.ne_none_iff_exists'.mp hp0
    have e1 : n + 1 + f = (n + f) + 1 := by omega
    rw [e1]
    simp only [ZPhysicalMemoryBackingSmallPages.unmapLoop, hi, if_true,
        ZMapper.unmap_view_preserve_placeholder, hh]
    rw [ih]
    · simp [ZPhysicalMemoryBackingSmallPages.unmapped, Nat.add_assoc, Nat.add_mul, Nat.add_comm,
        Nat.add_left_comm]
    · intro j hj
      have := hp (j + 1) (by omega)
      have e2 : addr + (i + ZGranuleSize sh) + j * ZGranuleSize sh
          = addr + i + (j + 1) * ZGranuleSize sh := by ring
      have hmul : (j + 1) * ZGranuleSize sh = ZGranuleSize sh + j * ZGranuleSize sh := by ring
      simp only
      rw [if_neg (by omega), e2]; exact this
    · intro j hj
      have := hlt (j + 1) (by omega)
      calc i + ZGranuleSize sh + j * ZGranuleSize sh = i + (j + 1) * ZGranuleSize sh := by ring
        _ < size := this

theorem mapped_handles (G : Nat) :
    ∀ (n a o : Nat) (s : ZPhysicalMemoryBackingSmallPages),
        (ZPhysicalMemoryBackingSmallPages.mapped G a o n s)._handles = s._handles := by
  intro n
  induction n with
  | zero => intro a o s; rfl
  | succ n ih => intro a o s; simp [ZPhysicalMemoryBackingSmallPages.mapped, ih]

theorem mapped_live (G : Nat) :
    ∀ (n a o : Nat) (s : ZPhysicalMemoryBackingSmallPages),
      (ZPhysicalMemoryBackingSmallPages.mapped G a o n s).mapper.live = s.mapper.live := by
  intro n
  induction n with
  | zero => intro a o s; rfl
  | succ n ih => intro a o s; simp [ZPhysicalMemoryBackingSmallPages.mapped, ih]

theorem mapped_views_other (G : Nat) :
    ∀ (n a o : Nat) (s : ZPhysicalMemoryBackingSmallPages) (x : Nat), (∀ j, j < n → x ≠ a + j * G) →
      (ZPhysicalMemoryBackingSmallPages.mapped G a o n s).mapper.views x = s.mapper.views x := by
  intro n
  induction n with
  | zero => intro a o s x _; rfl
  | succ n ih =>
    intro a o s x hx
    simp only [ZPhysicalMemoryBackingSmallPages.mapped]
    rw [ih]
    · have := hx 0 (by simp)
      simp only
      rw [if_neg (by simpa using this)]
    · intro j hj
      have := hx (j + 1) (by omega)
      intro e; apply this; rw [e]; ring

theorem mapped_views_at (G : Nat) (hG : 0 < G) :
    ∀ (n a o : Nat) (s : ZPhysicalMemoryBackingSmallPages) (j : Nat), j < n →
      (ZPhysicalMemoryBackingSmallPages.mapped G a o n s).mapper.views (a + j * G)
          = some (s._handles (o + j * G)) := by
  intro n
  induction n with
  | zero => intro a o s j hj; omega
  | succ n ih =>
    intro a o s j hj
    simp only [ZPhysicalMemoryBackingSmallPages.mapped]
    cases j with
    | zero =>
      rw [mapped_views_other]
      · simp
      · intro j _
        have : 0 < (j + 1) * G := Nat.mul_pos (Nat.succ_pos j) hG
        have e : a + G + j * G = a + (j + 1) * G := by ring
        omega
    | succ j =>
      have e : a + (j + 1) * G = a + G + j * G := by ring
      have e2 : o + (j + 1) * G = o + G + j * G := by ring
      rw [e, e2, ih (a + G) (o + G) _ j (by omega)]

theorem unmapped_handles (G : Nat) :
    ∀ (n a : Nat) (s : ZPhysicalMemoryBackingSmallPages),
        (ZPhysicalMemoryBackingSmallPages.unmapped G a n s)._handles = s._handles := by
  intro n
  induction n with
  | zero => intro a s; rfl
  | succ n ih => intro a s; simp [ZPhysicalMemoryBackingSmallPages.unmapped, ih]

theorem unmapped_live (G : Nat) :
    ∀ (n a : Nat) (s : ZPhysicalMemoryBackingSmallPages),
      (ZPhysicalMemoryBackingSmallPages.unmapped G a n s).mapper.live = s.mapper.live := by
  intro n
  induction n with
  | zero => intro a s; rfl
  | succ n ih => intro a s; simp [ZPhysicalMemoryBackingSmallPages.unmapped, ih]

theorem unmapped_views_other (G : Nat) :
    ∀ (n a : Nat) (s : ZPhysicalMemoryBackingSmallPages) (x : Nat), (∀ j, j < n → x ≠ a + j * G) →
      (ZPhysicalMemoryBackingSmallPages.unmapped G a n s).mapper.views x = s.mapper.views x := by
  intro n
  induction n with
  | zero => intro a s x _; rfl
  | succ n ih =>
    intro a s x hx
    simp only [ZPhysicalMemoryBackingSmallPages.unmapped]
    rw [ih]
    · have := hx 0 (by simp)
      simp only
      rw [if_neg (by simpa using this)]
    · intro j hj
      have := hx (j + 1) (by omega)
      intro e; apply this; rw [e]; ring

theorem unmapped_views_at (G : Nat) (hG : 0 < G) :
    ∀ (n a : Nat) (s : ZPhysicalMemoryBackingSmallPages) (j : Nat), j < n →
      (ZPhysicalMemoryBackingSmallPages.unmapped G a n s).mapper.views (a + j * G) = none := by
  intro n
  induction n with
  | zero => intro a s j hj; omega
  | succ n ih =>
    intro a s j hj
    simp only [ZPhysicalMemoryBackingSmallPages.unmapped]
    cases j with
    | zero =>
      rw [unmapped_views_other]
      · simp
      · intro j _
        have : 0 < (j + 1) * G := Nat.mul_pos (Nat.succ_pos j) hG
        have e : a + G + j * G = a + (j + 1) * G := by ring
        omega
    | succ j =>
      have e : a + (j + 1) * G = a + G + j * G := by ring
      rw [e, ih (a + G) _ j (by omega)]

theorem is_aligned_granules (sh N : Nat) : is_aligned (N * ZGranuleSize sh) (ZGranuleSize sh)
    = true := by
  simp [is_aligned]

theorem small_map_eq (sh A N O : Nat) (s : ZPhysicalMemoryBackingSmallPages)
    (hA : is_aligned A (ZGranuleSize sh) = true) (hO : is_aligned O (ZGranuleSize sh) = true)
    (hc : ∀ j, j < N → s._handles (O + j * ZGranuleSize sh) ≠ 0)
    (hp : ∀ j, j < N → s.mapper.views (A + j * ZGranuleSize sh) = none) :
    s.map sh A (N * ZGranuleSize sh) O
      = .ok (ZPhysicalMemoryBackingSmallPages.mapped (ZGranuleSize sh) A O N s) := by
  have hG := ZGranuleSize_pos sh
  have hlt : ∀ j, j < N → j * ZGranuleSize sh < N * ZGranuleSize sh := fun j hj =>
    Nat.mul_lt_mul_of_pos_right hj hG
  have hfuel : N * ZGranuleSize sh + 1 = N + (N * ZGranuleSize sh - N + 1) := by
    have : N ≤ N * ZGranuleSize sh := Nat.le_mul_of_pos_right N hG
    omega
  simp only [ZPhysicalMemoryBackingSmallPages.map, hA, hO, is_aligned_granules, Bool.not_true,
      Bool.false_eq_true,
    if_false]
  rw [hfuel, mapLoop_binds sh A (N * ZGranuleSize sh) O N _ 0 s
    (by intro j hj; simpa using hc j hj)
    (by intro j hj; simpa using hp j hj)
    (by intro j hj; simpa using hlt j hj)]
  simp [ZPhysicalMemoryBackingSmallPages.mapLoop]

theorem small_unmap_eq (sh A N : Nat) (s : ZPhysicalMemoryBackingSmallPages)
    (hA : is_aligned A (ZGranuleSize sh) = true)
    (hp : ∀ j, j < N → s.mapper.views (A + j * ZGranuleSize sh) ≠ none) :
    s.unmap sh A (N * ZGranuleSize sh)
      = .ok (ZPhysicalMemoryBackingSmallPages.unmapped (ZGranuleSize sh) A N s) := by
  have hG := ZGranuleSize_pos sh
  have hlt : ∀ j, j < N → j * ZGranuleSize sh < N * ZGranuleSize sh := fun j hj =>
    Nat.mul_lt_mul_of_pos_right hj hG
  have hfuel : N * ZGranuleSize sh + 1 = N + (N * ZGranuleSize sh - N + 1) := by
    have : N ≤ N * ZGranuleSize sh := Nat.le_mul_of_pos_right N hG
    omega
  simp only [ZPhysicalMemoryBackingSmallPages.unmap, hA, is_aligned_granules, Bool.not_true,
      Bool.false_eq_true,
    if_false]
  rw [hfuel, unmapLoop_unbinds sh A (N * ZGranuleSize sh) N _ 0 s
    (by intro j hj; simpa using hp j hj)
    (by intro j hj; simpa using hlt j hj)]
  simp [ZPhysicalMemoryBackingSmallPages.unmapLoop]

theorem small_map_unmap_map (sh A N O1 O2 : Nat) (s : ZPhysicalMemoryBackingSmallPages)
    (hA : is_aligned A (ZGranuleSize sh) = true)
    (hO1 : is_aligned O1 (ZGranuleSize sh) = true)
    (hO2 : is_aligned O2 (ZGranuleSize sh) = true)
    (hc1 : ∀ j, j < N → s._handles (O1 + j * ZGranuleSize sh) ≠ 0)
    (hc2 : ∀ j, j < N → s._handles (O2 + j * ZGranuleSize sh) ≠ 0)
    (hp : ∀ j, j < N → s.mapper.views (A + j * ZGranuleSize sh) = none) :
    ∃ s1 s2 s3 : ZPhysicalMemoryBackingSmallPages,
      s.map sh A (N * ZGranuleSize sh) O1 = .ok s1 ∧
      (∀ j, j < N → s1.mapper.views (A + j * ZGranuleSize sh)
        = some (s._handles (O1 + j * ZGranuleSize sh))) ∧
      s1.unmap sh A (N * ZGranuleSize sh) = .ok s2 ∧
      (∀ j, j < N → s2.mapper.views (A + j * ZGranuleSize sh) = none) ∧
      s2.map sh A (N * ZGranuleSize sh) O2 = .ok s3 ∧
      (∀ j, j < N → s3.mapper.views (A + j * ZGranuleSize sh)
        = some (s._handles (O2 + j * ZGranuleSize sh))) ∧
      s3._handles = s._handles ∧ s3.mapper.live = s.mapper.live := by
  have hG := ZGranuleSize_pos sh
  have hv1 : ∀ j, j < N →
      (ZPhysicalMemoryBackingSmallPages.mapped (ZGranuleSize sh) A O1 N s).mapper.views
          (A + j * ZGranuleSize sh)
        = some (s._handles (O1 + j * ZGranuleSize sh)) :=
    fun j hj => mapped_views_at _ hG N A O1 s j hj
  have hv2 : ∀ j, j < N →
      (ZPhysicalMemoryBackingSmallPages.unmapped (ZGranuleSize sh) A N
        (ZPhysicalMemoryBackingSmallPages.mapped (ZGranuleSize sh) A O1 N s)).mapper.views
            (A + j * ZGranuleSize sh)
        = none :=
    fun j hj => unmapped_views_at _ hG N A _ j hj
  have hh2 : (ZPhysicalMemoryBackingSmallPages.unmapped (ZGranuleSize sh) A N
        (ZPhysicalMemoryBackingSmallPages.mapped (ZGranuleSize sh) A O1 N s))._handles
            = s._handles := by
    rw [unmapped_handles, mapped_handles]
  refine ⟨_, _, _, small_map_eq sh A N O1 s hA hO1 hc1 hp, hv1,
    small_unmap_eq sh A N _ hA (fun j hj => by rw [hv1 j hj]; simp), hv2,
    small_map_eq sh A N O2 _ hA hO2 (fun j hj => by rw [hh2]; exact hc2 j hj) hv2, ?_, ?_, ?_⟩
  · intro j hj
    rw [mapped_views_at _ hG N A O2 _ j hj, hh2]
  · rw [mapped_handles, hh2]
  · rw [mapped_live, unmapped_live, mapped_live]

/-- C5. Multi-mapping with small pages.  Let the address `A` and the offsets `O1`
and `O2` be granule-aligned, let the `N` granules at `O1` and the `N` granules at
`O2` be committed in `s`, and let the `N` granules of `[A, A + N * G)` all be
placeholders.  Then map(A, N * G, O1), unmap(A, N * G), map(A, N * G, O2) all
return (no fatal error); after the first map granule `A + j * G` is bound to the
handle registered at `O1 + j * G`; after the unmap every granule of the range is a
placeholder again; and at the end granule `A + j * G` is bound to the handle
registered at `O2 + j * G`. -/
theorem small_pages_multi_mapping (sh A N O1 O2 : Nat) (s : ZPhysicalMemoryBackingSmallPages)
    (hA : is_aligned A (ZGranuleSize sh) = true)
    (hO1 : is_aligned O1 (ZGranuleSize sh) = true)
    (hO2 : is_aligned O2 (ZGranuleSize sh) = true)
    (hc1 : ∀ j, j < N → s.committed (O1 + j * ZGranuleSize sh))
    (hc2 : ∀ j, j < N → s.committed (O2 + j * ZGranuleSize sh))
    (hp : ∀ j, j < N → s.mapper.views (A + j * ZGranuleSize sh) = none) :
    ∃ s1 s2 s3 : ZPhysicalMemoryBackingSmallPages,
      s.map sh A (N * ZGranuleSize sh) O1 = .ok s1 ∧
      (∀ j, j < N → s1.mapper.views (A + j * ZGranuleSize sh)
        = some (s._handles.get (O1 + j * ZGranuleSize sh))) ∧
      s1.unmap sh A (N * ZGranuleSize sh) = .ok s2 ∧
      (∀ j, j < N → s2.mapper.views (A + j * ZGranuleSize sh) = none) ∧
      s2.map sh A (N * ZGranuleSize sh) O2 = .ok s3 ∧
      (∀ j, j < N → s3.mapper.views (A + j * ZGranuleSize sh)
        = some (s._handles.get (O2 + j * ZGranuleSize sh))) := by
  obtain ⟨s1, s2, s3, h1, h2, h3, h4, h5, h6, _, _⟩ :=
    small_map_unmap_map sh A N O1 O2 s hA hO1 hO2 hc1 hc2 hp
  exact ⟨s1, s2, s3, h1, h2, h3, h4, h5, h6⟩

/-- Witness of C5: granule size 2, handles 5, 7, 9, 11 registered at the offsets
0, 2, 4, 6, all addresses placeholders; the two granules at address 8 are mapped
to offset 0, unmapped, and mapped to offset 4. -/
theorem small_pages_multi_mapping_witness :
    ∃ s1 s2 s3 : ZPhysicalMemoryBackingSmallPages,
      ZPhysicalMemoryBackingSmallPages.map 1 8 (2 * ZGranuleSize 1) 0
        (ZPhysicalMemoryBackingSmallPages.registered 2 0 [5, 7, 9, 11] ⟨ZGranuleMap.empty, ⟨[],
            fun _ => none, []⟩⟩)
        = .ok s1 ∧
      s1.mapper.views 8 = some 5 ∧ s1.mapper.views 10 = some 7 ∧
      s1.unmap 1 8 (2 * ZGranuleSize 1) = .ok s2 ∧
      s2.mapper.views 8 = none ∧ s2.mapper.views 10 = none ∧
      s2.map 1 8 (2 * ZGranuleSize 1) 4 = .ok s3 ∧
      s3.mapper.views 8 = some 9 ∧ s3.mapper.views 10 = some 11 := by
  obtain ⟨s1, s2, s3, h1, h2, h3, h4, h5, h6⟩ :=
    small_pages_multi_mapping 1 8 2 0 4
      (ZPhysicalMemoryBackingSmallPages.registered 2 0 [5, 7, 9, 11] ⟨ZGranuleMap.empty, ⟨[],
          fun _ => none, []⟩⟩)
      (by decide) (by decide) (by decide) (by decide) (by decide) (fun _ _ => rfl)
  exact ⟨s1, s2, s3, h1, h2 0 (by decide), h2 1 (by decide), h3, h4 0 (by decide),
    h4 1 (by decide), h5, h6 0 (by decide), h6 1 (by decide)⟩

theorem mapLoop_frame (sh addr size offset : Nat) :
    ∀ (fuel i : Nat) (s s1 : ZPhysicalMemoryBackingSmallPages),
      s.mapLoop sh addr size offset fuel i = .ok s1 →
      s1._handles = s._handles ∧ s1.mapper.live = s.mapper.live := by
  intro fuel
  induction fuel with
  | zero => intro i s s1 h; simp [ZPhysicalMemoryBackingSmallPages.mapLoop] at h
  | succ fuel ih =>
    intro i s s1 h
    simp only [ZPhysicalMemoryBackingSmallPages.mapLoop] at h
    by_cases hi : i < size
    · simp only [hi, if_true] at h
      cases hg : ZPhysicalMemoryBackingSmallPages.get_handle s (offset + i) with
      | error e => simp [hg] at h
      | ok handle =>
        simp only [hg] at h
        cases hm : ZMapper.map_view_replace_placeholder handle 0 (addr + i) (ZGranuleSize sh)
            s.mapper with
        | error e => simp [hm] at h
        | ok m =>
          simp only [hm] at h
          have := ih _ _ _ h
          have hlive : m.live = s.mapper.live := by
            unfold ZMapper.map_view_replace_placeholder at hm
            split at hm
            · injection hm with hm; rw [← hm]
            · simp at hm
          exact ⟨this.1, by rw [this.2]; exact hlive⟩
    · simp only [hi, if_false] at h
      injection h with h
      rw [← h]; exact ⟨rfl, rfl⟩

theorem unmapLoop_frame (sh addr size : Nat) :
    ∀ (fuel i : Nat) (s s1 : ZPhysicalMemoryBackingSmallPages),
      s.unmapLoop sh addr size fuel i = .ok s1 →
      s1._handles = s._handles ∧ s1.mapper.live = s.mapper.live := by
  intro fuel
  induction fuel with
  | zero => intro i s s1 h; simp [ZPhysicalMemoryBackingSmallPages.unmapLoop] at h
  | succ fuel ih =>
    intro i s s1 h
    simp only [ZPhysicalMemoryBackingSmallPages.unmapLoop] at h
    by_cases hi : i < size
    · simp only [hi, if_true] at h
      cases hm : ZMapper.unmap_view_preserve_placeholder (addr + i) (ZGranuleSize sh)
          s.mapper with
      | error e => simp [hm] at h
      | ok m =>
        simp only [hm] at h
        have := ih _ _ _ h
        have hlive : m.live = s.mapper.live := by
          unfold ZMapper.unmap_view_preserve_placeholder at hm
          split at hm
          · injection hm with hm; rw [← hm]
          · simp at hm
        exact ⟨this.1, by rw [this.2]; exact hlive⟩
    · simp only [hi, if_false] at h
      injection h with h
      rw [← h]; exact ⟨rfl, rfl⟩

theorem small_map_frame (sh addr size offset : Nat) (s s1 : ZPhysicalMemoryBackingSmallPages)
    (h : s.map sh addr size offset = .ok s1) :
    s1._handles = s._handles ∧ s1.mapper.live = s.mapper.live := by
  unfold ZPhysicalMemoryBackingSmallPages.map at h
  split at h
  · simp at h
  · split at h
    · simp at h
    · split at h
      · simp at h
      · exact mapLoop_frame sh addr size offset _ _ s s1 h

theorem small_unmap_frame (sh addr size : Nat) (s s1 : ZPhysicalMemoryBackingSmallPages)
    (h : s.unmap sh addr size = .ok s1) :
    s1._handles = s._handles ∧ s1.mapper.live = s.mapper.live := by
  unfold ZPhysicalMemoryBackingSmallPages.unmap at h
  split at h
  · simp at h
  · split at h
    · simp at h
    · exact unmapLoop_frame sh addr size _ _ s s1 h

/-- C6. Small pages: map and unmap never change the store.  For every state and
all arguments, when map(addr, size, offset) or unmap(addr, size) returns, the
store of handles afterwards equals the store before.  In particular, for an
aligned address `A` whose two granules are placeholders and a state in which the
offsets 0 and `G` are uncommitted: commit(0, 2 * G) with both creations succeeding,
then map(A, 2 * G, 0), then unmap(A, 2 * G) all return, and afterwards the handles
at the offsets 0 and `G` are exactly the two handles registered by the commit. -/
theorem small_map_unmap_leave_store (sh addr size offset : Nat) :
    (∀ s s1 : ZPhysicalMemoryBackingSmallPages, s.map sh addr size offset = .ok s1 →
      s1._handles = s._handles) ∧
    (∀ s s1 : ZPhysicalMemoryBackingSmallPages, s.unmap sh addr size = .ok s1 →
      s1._handles = s._handles) ∧
    (∀ (h0 h1 : HANDLE) (rest : List HANDLE) (s : ZPhysicalMemoryBackingSmallPages),
      validHandle h0 → validHandle h1 →
      is_aligned addr (ZGranuleSize sh) = true →
      s._handles.get 0 = 0 → s._handles.get (ZGranuleSize sh) = 0 →
      s.mapper.views addr = none → s.mapper.views (addr + ZGranuleSize sh) = none →
      ∃ s1 s2 s3 : ZPhysicalMemoryBackingSmallPages,
        s.commit sh 0 (2 * ZGranuleSize sh) (h0 :: h1 :: rest)
          = .ok (2 * ZGranuleSize sh, s1) ∧
        s1._handles.get 0 = h0 ∧ s1._handles.get (ZGranuleSize sh) = h1 ∧
        s1.map sh addr (2 * ZGranuleSize sh) 0 = .ok s2 ∧
        s2.unmap sh addr (2 * ZGranuleSize sh) = .ok s3 ∧
        s3._handles.get 0 = h0 ∧ s3._handles.get (ZGranuleSize sh) = h1) := by
  have hG := ZGranuleSize_pos sh
  refine ⟨fun s s1 h => (small_map_frame sh addr size offset s s1 h).1,
    fun s s1 h => (small_unmap_frame sh addr size s s1 h).1, ?_⟩
  intro h0 h1 rest s hv0 hv1 hA hs0 hs1 hp0 hp1
  have hfree : ∀ j, j < 2 → s._handles (0 + j * ZGranuleSize sh) = 0 := by
    intro j hj
    interval_cases j
    · simpa [ZGranuleMap.get] using hs0
    · simpa [ZGranuleMap.get] using hs1
  have hcommit := commit_full_eq sh 0 2 [h0, h1] rest s rfl
    (by intro h hh; simp at hh; rcases hh with rfl | rfl <;> assumption) hfree
  have hr0 : (ZPhysicalMemoryBackingSmallPages.registered (ZGranuleSize sh) 0 [h0,
      h1] s)._handles 0 = h0 := by
    simpa using registered_handles_at _ hG [h0, h1] 0 s 0 (by simp)
  have hr1 : (ZPhysicalMemoryBackingSmallPages.registered (ZGranuleSize sh) 0 [h0,
      h1] s)._handles (ZGranuleSize sh)
      = h1 := by
    simpa using registered_handles_at _ hG [h0, h1] 0 s 1 (by simp)
  have hcm : ∀ j, j < 2 →
      (ZPhysicalMemoryBackingSmallPages.registered (ZGranuleSize sh) 0 [h0,
          h1] s)._handles (0 + j * ZGranuleSize sh)
        ≠ 0 := by
    intro j hj
    interval_cases j
    · simpa [hr0] using hv0.1
    · simpa [hr1] using hv1.1
  have hpl : ∀ j, j < 2 →
      (ZPhysicalMemoryBackingSmallPages.registered (ZGranuleSize sh) 0 [h0, h1] s).mapper.views
        (addr + j * ZGranuleSize sh) = none := by
    intro j hj
    rw [registered_views]
    interval_cases j
    · simpa using hp0
    · simpa using hp1
  obtain ⟨s2, s3, _, hm, _, hu, _, _, _, _⟩ :
      ∃ s2 s3 s4 : ZPhysicalMemoryBackingSmallPages,
        ZPhysicalMemoryBackingSmallPages.map sh addr (2 * ZGranuleSize sh) 0
          (ZPhysicalMemoryBackingSmallPages.registered (ZGranuleSize sh) 0 [h0, h1] s) = .ok s2 ∧
              _ ∧
        s2.unmap sh addr (2 * ZGranuleSize sh) = .ok s3 ∧ _ ∧ _ ∧ _ ∧ _ ∧ _ :=
    small_map_unmap_map sh addr 2 0 0 _ hA (by simp [is_aligned]) (by simp [is_aligned])
      hcm hcm hpl
  have e3 : s3._handles = (ZPhysicalMemoryBackingSmallPages.registered (ZGranuleSize sh) 0 [h0,
      h1] s)._handles := by
    rw [(small_unmap_frame sh addr _ s2 s3 hu).1, (small_map_frame sh addr _ 0 _ s2 hm).1]
  refine ⟨_, s2, s3, hcommit, hr0, hr1, hm, hu, ?_, ?_⟩
  · simp only [ZGranuleMap.get]; rw [e3]; exact hr0
  · simp only [ZGranuleMap.get]; rw [e3]; exact hr1

/-- Witness of C6: granule size 2, commit(0, 4) from the empty store with the
handles 5 and 7, then map(8, 4, 0) and unmap(8, 4); the store still holds 5 at
offset 0 and 7 at offset 2. -/
theorem small_map_unmap_leave_store_witness :
    ∃ s1 s2 s3 : ZPhysicalMemoryBackingSmallPages,
      ZPhysicalMemoryBackingSmallPages.commit 1 0 (2 * ZGranuleSize 1) [5, 7]
          ⟨ZGranuleMap.empty, ⟨[], fun _ => none, []⟩⟩ = .ok (2 * ZGranuleSize 1, s1) ∧
      s1._handles.get 0 = 5 ∧ s1._handles.get (ZGranuleSize 1) = 7 ∧
      s1.map 1 8 (2 * ZGranuleSize 1) 0 = .ok s2 ∧
      s2.unmap 1 8 (2 * ZGranuleSize 1) = .ok s3 ∧
      s3._handles.get 0 = 5 ∧ s3._handles.get (ZGranuleSize 1) = 7 ∧
      s2._handles = s1._handles ∧ s3._handles = s2._handles := by
  obtain ⟨s1, s2, s3, h1, h2, h3, h4, h5, h6, h7⟩ :=
    (small_map_unmap_leave_store 1 8 (2 * ZGranuleSize 1) 0).2.2 5 7 []
      ⟨ZGranuleMap.empty, ⟨[], fun _ => none, []⟩⟩ (by decide) (by decide) (by decide)
      rfl rfl rfl rfl
  exact ⟨s1, s2, s3, h1, h2, h3, h4, h5, h6, h7,
    (small_map_unmap_leave_store 1 8 (2 * ZGranuleSize 1) 0).1 s1 s2 h4,
    (small_map_unmap_leave_store 1 8 (2 * ZGranuleSize 1) 0).2.1 s2 s3 h5⟩

/-- C7. Large pages, partial allocation.  For a request of `n` granules
(`size = n * ZGranuleSize`, a `size_t` value) at any offset: when
`AllocateUserPhysicalPages` reports success and grants `actual_count < n` pages,
commit returns exactly `actual_count * ZGranuleSize` and the process goes on; and
for every answer of the pool, commit is fatal if and only if the pool reports
failure. -/
theorem large_commit_returns_granted_pages (sh offset n actual_count : Nat)
    (l : ZPhysicalMemoryBackingLargePages)
    (hfit : n * ZGranuleSize sh < 2 ^ 64) (hlt : actual_count < n) :
    l.commit sh offset (n * ZGranuleSize sh) true actual_count
      = .ok (actual_count * ZGranuleSize sh,
          ⟨l.calls ++ [AweCall.allocate (offset >>> sh) n actual_count true]⟩) ∧
    ∀ (res : Bool) (npages_res : Nat),
      (∃ e, l.commit sh offset (n * ZGranuleSize sh) res npages_res = .error e)
        ↔ res = false := by
  have hG := ZGranuleSize_pos sh
  have hsmall : actual_count * ZGranuleSize sh < 2 ^ 64 :=
    lt_trans (Nat.mul_lt_mul_of_pos_right hlt hG) hfit
  constructor
  · simp only [ZPhysicalMemoryBackingLargePages.commit, granules_shiftLeft, granules_shiftRight,
      Nat.mod_eq_of_lt hsmall]
    rfl
  · intro res npages_res
    cases res <;> simp [ZPhysicalMemoryBackingLargePages.commit]

/-- Witness of C7: granule size 2, three granules requested at offset 4, two
granted: commit returns 4. -/
theorem large_commit_returns_granted_pages_witness :
    ZPhysicalMemoryBackingLargePages.commit 1 4 (3 * ZGranuleSize 1) true 2 ⟨[]⟩
      = .ok (2 * ZGranuleSize 1, ⟨[] ++ [AweCall.allocate (4 >>> 1) 3 2 true]⟩) ∧
    ∀ (res : Bool) (npages_res : Nat),
      (∃ e, ZPhysicalMemoryBackingLargePages.commit 1 4 (3 * ZGranuleSize 1) res npages_res ⟨[]⟩
          = .error e)
        ↔ res = false :=
  large_commit_returns_granted_pages 1 4 3 2 ⟨[]⟩ (by decide) (by decide)

theorem commitLoop_error_kinds (sh offset size : Nat) :
    ∀ (fuel i : Nat) (script : List HANDLE) (s : ZPhysicalMemoryBackingSmallPages) (e : Abort),
      s.commitLoop sh offset size fuel i script = .error e →
      e = Abort.assert_invalid_handle ∨ e = Abort.assert_should_be_cleared ∨
        e = Abort.loop_guard := by
  intro fuel
  induction fuel with
  | zero =>
    intro i script s e h
    simp only [ZPhysicalMemoryBackingSmallPages.commitLoop] at h
    injection h with h
    exact Or.inr (Or.inr h.symm)
  | succ fuel ih =>
    intro i script s e h
    simp only [ZPhysicalMemoryBackingSmallPages.commitLoop] at h
    by_cases hi : i < size
    · simp only [hi, if_true] at h
      generalize ZMapper.create_and_commit_paging_file_mapping (ZGranuleSize sh) script
        s.mapper = c at h
      by_cases h0 : c.1 = 0
      · simp [h0] at h
      · simp only [h0, if_false] at h
        split at h
        · rename_i e1 hp
          injection h with h
          subst h
          unfold ZPhysicalMemoryBackingSmallPages.put_handle at hp
          split at hp
          · injection hp with hp; exact Or.inl hp.symm
          · split at hp
            · injection hp with hp; exact Or.inr (Or.inl hp.symm)
            · simp at hp
        · exact ih _ _ _ _ h
    · simp [hi] at h

theorem commitLoop_total (sh offset size : Nat) :
    ∀ (fuel i : Nat) (script : List HANDLE) (s : ZPhysicalMemoryBackingSmallPages),
        size - i < fuel →
      s.commitLoop sh offset size fuel i script ≠ .error Abort.loop_guard := by
  intro fuel
  induction fuel with
  | zero => intro i script s h; omega
  | succ fuel ih =>
    intro i script s hf h
    have hG := ZGranuleSize_pos sh
    simp only [ZPhysicalMemoryBackingSmallPages.commitLoop] at h
    by_cases hi : i < size
    · simp only [hi, if_true] at h
      generalize ZMapper.create_and_commit_paging_file_mapping (ZGranuleSize sh) script
        s.mapper = c at h
      by_cases h0 : c.1 = 0
      · simp [h0] at h
      · simp only [h0, if_false] at h
        split at h
        · rename_i e1 hp
          injection h with h
          subst h
          unfold ZPhysicalMemoryBackingSmallPages.put_handle at hp
          split at hp
          · simp at hp
          · split at hp <;> simp at hp
        · exact ih _ _ _ (by omega) h
    · simp [hi] at h

theorem uncommitLoop_total (sh offset size : Nat) :
    ∀ (fuel i : Nat) (s : ZPhysicalMemoryBackingSmallPages), size - i < fuel →
      s.uncommitLoop sh offset size fuel i ≠ .error Abort.loop_guard := by
  intro fuel
  induction fuel with
  | zero => intro i s h; omega
  | succ fuel ih =>
    intro i s hf h
    have hG := ZGranuleSize_pos sh
    simp only [ZPhysicalMemoryBackingSmallPages.uncommitLoop] at h
    by_cases hi : i < size
    · simp only [hi, if_true, ZPhysicalMemoryBackingSmallPages.get_handle,
        ZPhysicalMemoryBackingSmallPages.clear_handle] at h
      by_cases h0 : s._handles.get (offset + i) = 0
      · simp [h0] at h
      · simp only [h0, if_false] at h
        exact ih _ _ (by omega) h
    · simp [hi] at h

theorem mapLoop_total (sh addr size offset : Nat) :
    ∀ (fuel i : Nat) (s : ZPhysicalMemoryBackingSmallPages), size - i < fuel →
      s.mapLoop sh addr size offset fuel i ≠ .error Abort.loop_guard := by
  intro fuel
  induction fuel with
  | zero => intro i s h; omega
  | succ fuel ih =>
    intro i s hf h
    have hG := ZGranuleSize_pos sh
    simp only [ZPhysicalMemoryBackingSmallPages.mapLoop] at h
    by_cases hi : i < size
    · simp only [hi, if_true, ZPhysicalMemoryBackingSmallPages.get_handle] at h
      by_cases h0 : s._handles.get (offset + i) = 0
      · simp [h0] at h
      · simp only [h0, if_false] at h
        cases hm : ZMapper.map_view_replace_placeholder (s._handles.get (offset + i)) 0
            (addr + i) (ZGranuleSize sh) s.mapper with
        | error e1 =>
          simp only [hm] at h
          injection h with h
          subst h
          unfold ZMapper.map_view_replace_placeholder at hm
          split at hm <;> simp at hm
        | ok m =>
          simp only [hm] at h
          exact ih _ _ (by omega) h
    · simp [hi] at h

theorem unmapLoop_total (sh addr size : Nat) :
    ∀ (fuel i : Nat) (s : ZPhysicalMemoryBackingSmallPages), size - i < fuel →
      s.unmapLoop sh addr size fuel i ≠ .error Abort.loop_guard := by
  intro fuel
  induction fuel with
  | zero => intro i s h; omega
  | succ fuel ih =>
    intro i s hf h
    have hG := ZGranuleSize_pos sh
    simp only [ZPhysicalMemoryBackingSmallPages.unmapLoop] at h
    by_cases hi : i < size
    · simp only [hi, if_true] at h
      cases hm : ZMapper.unmap_view_preserve_placeholder (addr + i) (ZGranuleSize sh)
          s.mapper with
      | error e1 =>
        simp only [hm] at h
        injection h with h
        subst h
        unfold ZMapper.unmap_view_preserve_placeholder at hm
        split at hm <;> simp at hm
      | ok m =>
        simp only [hm] at h
        exact ih _ _ (by omega) h
    · simp [hi] at h

/-- The iteration bound of the four loops of the small-pages strategy is never
used up: no call yields `loop_guard`, so every outcome of the model is an outcome
of the program. -/
theorem small_pages_loops_total (sh : Nat) (s : ZPhysicalMemoryBackingSmallPages) :
    (∀ offset size script, s.commit sh offset size script ≠ .error Abort.loop_guard) ∧
    (∀ offset size, s.uncommit sh offset size ≠ .error Abort.loop_guard) ∧
    (∀ addr size offset, s.map sh addr size offset ≠ .error Abort.loop_guard) ∧
    (∀ addr size, s.unmap sh addr size ≠ .error Abort.loop_guard) := by
  refine ⟨?_, ?_, ?_, ?_⟩
  · intro offset size script
    exact commitLoop_total sh offset size _ 0 script s (by omega)
  · intro offset size
    exact uncommitLoop_total sh offset size _ 0 s (by omega)
  · intro addr size offset
    unfold ZPhysicalMemoryBackingSmallPages.map
    split
    · simp
    · split
      · simp
      · split
        · simp
        · exact mapLoop_total sh addr size offset _ 0 s (by omega)
  · intro addr size
    unfold ZPhysicalMemoryBackingSmallPages.unmap
    split
    · simp
    · split
      · simp
      · exact unmapLoop_total sh addr size _ 0 s (by omega)

/-- Counterexample to C8 as stated.  Granule size 2: the offset 1 is not
granule-aligned, yet the facade's commit(1, 2) is forwarded and returns 2, under
large pages (the AWE allocation is made) and under small pages (the mapping
object is created and its handle registered at offset 1). -/
theorem facade_commit_forwards_unaligned_offset :
    is_aligned 1 (ZGranuleSize 1) = false ∧
    ZPhysicalMemoryBacking.commit 1 1 2 ⟨[], true, 1⟩ (select_impl true ⟨[], fun _ => none, []⟩)
      = .ok (2, .large ⟨[AweCall.allocate 0 1 1 true]⟩) ∧
    (ZPhysicalMemoryBacking.commit 1 1 2 ⟨[5], true, 0⟩
        (select_impl false ⟨[], fun _ => none, []⟩)).map
        (fun r => match r.2 with
          | .small s => (r.1, s._handles 1, s.mapper.calls)
          | .large _ => (r.1, 0, []))
      = .ok (2, 5, [MapperCall.create 2 5]) :=
  ⟨rfl, rfl, rfl⟩

/-- C8, amended.  The facade's commit makes no alignment check: for every offset,
granule-aligned or not, and every length, the request is forwarded unchanged to
the selected strategy and the outcome of the facade is the outcome of the
strategy's commit; no outcome of the facade's commit is the failed assertion
"Misaligned". -/
theorem facade_commit_has_no_alignment_check (sh offset length : Nat) (os : OsReplies) :
    (∀ s : ZPhysicalMemoryBackingSmallPages,
      ZPhysicalMemoryBacking.commit sh offset length os (.small s)
        = (s.commit sh offset length os.creations).map
            (fun r => (r.1, ZPhysicalMemoryBackingImpl.small r.2))) ∧
    (∀ l : ZPhysicalMemoryBackingLargePages,
      ZPhysicalMemoryBacking.commit sh offset length os (.large l)
        = (l.commit sh offset length os.awe_res os.awe_npages).map
            (fun r => (r.1, ZPhysicalMemoryBackingImpl.large r.2))) ∧
    (∀ impl : ZPhysicalMemoryBackingImpl,
      ZPhysicalMemoryBacking.commit sh offset length os impl
        ≠ .error Abort.assert_misaligned) := by
  have hsmall : ∀ s : ZPhysicalMemoryBackingSmallPages,
      ZPhysicalMemoryBacking.commit sh offset length os (.small s)
        = (s.commit sh offset length os.creations).map
            (fun r => (r.1, ZPhysicalMemoryBackingImpl.small r.2)) := by
    intro s
    simp only [ZPhysicalMemoryBacking.commit, ZPhysicalMemoryBackingImpl.commit]
    cases s.commit sh offset length os.creations <;> rfl
  have hlarge : ∀ l : ZPhysicalMemoryBackingLargePages,
      ZPhysicalMemoryBacking.commit sh offset length os (.large l)
        = (l.commit sh offset length os.awe_res os.awe_npages).map
            (fun r => (r.1, ZPhysicalMemoryBackingImpl.large r.2)) := by
    intro l
    simp only [ZPhysicalMemoryBacking.commit, ZPhysicalMemoryBackingImpl.commit]
    cases l.commit sh offset length os.awe_res os.awe_npages <;> rfl
  refine ⟨hsmall, hlarge, ?_⟩
  intro impl h
  cases impl with
  | small s =>
    rw [hsmall] at h
    cases hc : s.commit sh offset length os.creations with
    | error e =>
      rw [hc] at h
      simp only [Except.map] at h
      injection h with h
      subst h
      rcases commitLoop_error_kinds sh offset length _ _ _ _ _ hc with h1 | h1 | h1 <;>
        exact absurd h1 (by decide)
    | ok r => rw [hc] at h; simp [Except.map] at h
  | large l =>
    rw [hlarge] at h
    cases hr : os.awe_res <;> simp [ZPhysicalMemoryBackingLargePages.commit, hr, Except.map] at h

/-- C9. The facade's map is a failed assertion ("Misaligned") whenever one of
`offset`, `addr`, `size` is not a multiple of the granule size, and the facade's
unmap whenever `addr` or `size` is not; when every argument is granule-aligned the
outcome of the facade (final state, or the abort) is exactly the outcome of the
selected strategy's map or unmap on the same arguments. -/
theorem facade_map_unmap_alignment (sh addr size offset : Nat) (os : OsReplies)
    (impl : ZPhysicalMemoryBackingImpl) :
    ((is_aligned offset (ZGranuleSize sh) = false ∨ is_aligned addr (ZGranuleSize sh) = false ∨
        is_aligned size (ZGranuleSize sh) = false) →
      ZPhysicalMemoryBacking.map sh addr size offset os impl = .error Abort.assert_misaligned) ∧
    ((is_aligned offset (ZGranuleSize sh) = true ∧ is_aligned addr (ZGranuleSize sh) = true ∧
        is_aligned size (ZGranuleSize sh) = true) →
      ZPhysicalMemoryBacking.map sh addr size offset os impl
        = match impl with
          | .small s => (s.map sh addr size offset).map .small
          | .large l => (l.map sh addr size offset os.awe_res).map .large) ∧
    ((is_aligned addr (ZGranuleSize sh) = false ∨ is_aligned size (ZGranuleSize sh) = false) →
      ZPhysicalMemoryBacking.unmap sh addr size os impl = .error Abort.assert_misaligned) ∧
    ((is_aligned addr (ZGranuleSize sh) = true ∧ is_aligned size (ZGranuleSize sh) = true) →
      ZPhysicalMemoryBacking.unmap sh addr size os impl
        = match impl with
          | .small s => (s.unmap sh addr size).map .small
          | .large l => (l.unmap sh addr size os.awe_res).map .large) := by
  refine ⟨?_, ?_, ?_, ?_⟩
  · intro h
    unfold ZPhysicalMemoryBacking.map
    rcases h with h | h | h
    · simp [h]
    · cases is_aligned offset (ZGranuleSize sh) <;> simp [h]
    · cases is_aligned offset (ZGranuleSize sh) <;>
        cases is_aligned addr (ZGranuleSize sh) <;> simp [h]
  · rintro ⟨h1, h2, h3⟩
    simp only [ZPhysicalMemoryBacking.map, h1, h2, h3, Bool.not_true, Bool.false_eq_true,
      if_false]
    cases impl with
    | small s =>
      simp only [ZPhysicalMemoryBackingImpl.map]
      cases s.map sh addr size offset <;> rfl
    | large l =>
      simp only [ZPhysicalMemoryBackingImpl.map]
      cases l.map sh addr size offset os.awe_res <;> rfl
  · intro h
    unfold ZPhysicalMemoryBacking.unmap
    rcases h with h | h
    · simp [h]
    · cases is_aligned addr (ZGranuleSize sh) <;> simp [h]
  · rintro ⟨h1, h2⟩
    simp only [ZPhysicalMemoryBacking.unmap, h1, h2, Bool.not_true, Bool.false_eq_true,
      if_false]
    cases impl with
    | small s =>
      simp only [ZPhysicalMemoryBackingImpl.unmap]
      cases s.unmap sh addr size <;> rfl
    | large l =>
      simp only [ZPhysicalMemoryBackingImpl.unmap]
      cases l.unmap sh addr size os.awe_res <;> rfl

/-- Witness of C9: granule size 2, large pages selected.  map(3, 2, 0) and
unmap(3, 2) abort on the unaligned address 3; map(4, 2, 0) and unmap(4, 2) have
the outcome of the strategy. -/
theorem facade_map_unmap_alignment_witness :
    ZPhysicalMemoryBacking.map 1 3 2 0 ⟨[], true, 0⟩ (.large ⟨[]⟩)
      = .error Abort.assert_misaligned ∧
    ZPhysicalMemoryBacking.unmap 1 3 2 ⟨[], true, 0⟩ (.large ⟨[]⟩)
      = .error Abort.assert_misaligned ∧
    ZPhysicalMemoryBacking.map 1 4 2 0 ⟨[], true, 0⟩ (.large ⟨[]⟩)
      = (ZPhysicalMemoryBackingLargePages.map 1 4 2 0 true ⟨[]⟩).map .large ∧
    ZPhysicalMemoryBacking.unmap 1 4 2 ⟨[], true, 0⟩ (.large ⟨[]⟩)
      = (ZPhysicalMemoryBackingLargePages.unmap 1 4 2 true ⟨[]⟩).map .large :=
  ⟨(facade_map_unmap_alignment 1 3 2 0 ⟨[], true, 0⟩ (.large ⟨[]⟩)).1 (Or.inr (Or.inl rfl)),
   (facade_map_unmap_alignment 1 3 2 0 ⟨[], true, 0⟩ (.large ⟨[]⟩)).2.2.1 (Or.inl rfl),
   (facade_map_unmap_alignment 1 4 2 0 ⟨[], true, 0⟩ (.large ⟨[]⟩)).2.1 ⟨rfl, rfl, rfl⟩,
   (facade_map_unmap_alignment 1 4 2 0 ⟨[], true, 0⟩ (.large ⟨[]⟩)).2.2.2 ⟨rfl, rfl⟩⟩

theorem NoLeak.of_eq {s s1 : ZPhysicalMemoryBackingSmallPages} (h : NoLeak s) (hh : s1._handles
    = s._handles)
    (hl : s1.mapper.live = s.mapper.live) : NoLeak s1 := by
  refine ⟨?_, ?_, ?_⟩
  · rw [hl]; exact h.live_nodup
  · intro x; rw [hl, hh]; exact h.live_iff x
  · intro o1 o2; rw [hh]; exact h.distinct o1 o2

theorem NoLeak.register {s : ZPhysicalMemoryBackingSmallPages} (h : NoLeak s) (o : Nat) (r : HANDLE)
    (m : ZMapper) (hr : r ≠ 0) (hfresh : r ∉ s.mapper.live) (hempty : s._handles.get o = 0)
    (hm : m.live = r :: s.mapper.live) :
    NoLeak { _handles := s._handles.put o r, mapper := m } := by
  have hnot : ∀ o2, s._handles.get o2 ≠ r := by
    intro o2 e
    exact hfresh ((h.live_iff r).2 ⟨hr, o2, e⟩)
  refine ⟨?_, ?_, ?_⟩
  · simp only [hm]
    exact List.nodup_cons.2 ⟨hfresh, h.live_nodup⟩
  · intro x
    simp only [hm, List.mem_cons, ZGranuleMap.get, ZGranuleMap.put]
    constructor
    · rintro (rfl | hx)
      · exact ⟨hr, o, by simp⟩
      · obtain ⟨hx0, o2, ho2⟩ := (h.live_iff x).1 hx
        refine ⟨hx0, o2, ?_⟩
        have : o2 ≠ o := by
          rintro rfl
          exact hx0 (by rw [← ho2]; exact hempty)
        simpa [this] using ho2
    · rintro ⟨hx0, o2, ho2⟩
      by_cases e : o2 = o
      · left; simpa [e] using ho2.symm
      · right
        exact (h.live_iff x).2 ⟨hx0, o2, by simpa [e] using ho2⟩
  · intro o1 o2
    simp only [ZGranuleMap.get, ZGranuleMap.put]
    by_cases e1 : o1 = o <;> by_cases e2 : o2 = o
    · intro _ _; rw [e1, e2]
    · simp only [e1, e2, if_true, if_false]
      intro _ e
      exact absurd e.symm (hnot o2)
    · simp only [e1, e2, if_true, if_false]
      intro _ e
      exact absurd e (hnot o1)
    · simp only [e1, e2, if_false]
      exact h.distinct o1 o2

theorem NoLeak.release {s : ZPhysicalMemoryBackingSmallPages} (h : NoLeak s) (o : Nat) (m : ZMapper)
    (hset : s._handles.get o ≠ 0) (hm : m.live = s.mapper.live.erase (s._handles.get o)) :
    NoLeak { _handles := s._handles.put o 0, mapper := m } := by
  refine ⟨?_, ?_, ?_⟩
  · simp only [hm]
    exact h.live_nodup.erase _
  · intro x
    simp only [hm, h.live_nodup.mem_erase_iff, ZGranuleMap.get, ZGranuleMap.put]
    constructor
    · rintro ⟨hne, hx⟩
      obtain ⟨hx0, o2, ho2⟩ := (h.live_iff x).1 hx
      refine ⟨hx0, o2, ?_⟩
      have : o2 ≠ o := by
        rintro rfl
        exact hne ho2.symm
      simpa [this] using ho2
    · rintro ⟨hx0, o2, ho2⟩
      by_cases e : o2 = o
      · simp [e] at ho2; exact absurd ho2.symm hx0
      · simp only [e, if_false] at ho2
        refine ⟨?_, (h.live_iff x).2 ⟨hx0, o2, ho2⟩⟩
        intro hxe
        apply e
        apply h.distinct o2 o
        · simpa [ZGranuleMap.get, ho2] using hx0
        · simp only [ZGranuleMap.get]; rw [ho2]; exact hxe
  · intro o1 o2
    simp only [ZGranuleMap.get, ZGranuleMap.put]
    by_cases e1 : o1 = o
    · simp [e1]
    · by_cases e2 : o2 = o
      · simp only [e1, e2, if_true, if_false]
        intro h1 h2; exact absurd h2 h1
      · simp only [e1, e2, if_false]
        exact h.distinct o1 o2

theorem commitLoop_noLeak (sh offset size : Nat) :
    ∀ (fuel i : Nat) (script : List HANDLE) (s : ZPhysicalMemoryBackingSmallPages)
        (r : Nat × ZPhysicalMemoryBackingSmallPages),
      NoLeak s → freshCreations s.mapper.live script →
      s.commitLoop sh offset size fuel i script = .ok r → NoLeak r.2 := by
  intro fuel
  induction fuel with
  | zero => intro i script s r _ _ h; simp [ZPhysicalMemoryBackingSmallPages.commitLoop] at h
  | succ fuel ih =>
    intro i script s r hinv hfresh h
    simp only [ZPhysicalMemoryBackingSmallPages.commitLoop] at h
    by_cases hi : i < size
    · simp only [hi, if_true] at h
      cases script with
      | nil =>
        simp only [ZMapper.create_and_commit_paging_file_mapping, if_true] at h
        injection h with h
        subst h
        exact hinv.of_eq rfl rfl
      | cons c rest =>
        simp only [ZMapper.create_and_commit_paging_file_mapping] at h
        by_cases hc : c = 0
        · simp only [hc, if_true] at h
          injection h with h
          subst h
          exact hinv.of_eq rfl rfl
        · simp only [hc, if_false] at h
          simp only [freshCreations, hc, false_or] at hfresh
          split at h
          · simp at h
          · rename_i s1 hp
            unfold ZPhysicalMemoryBackingSmallPages.put_handle at hp
            split at hp
            · simp at hp
            · split at hp
              · simp at hp
              · rename_i hnotinv hempty
                injection hp with hp
                subst hp
                refine ih _ _ _ _ ?_ ?_ h
                · exact hinv.register (offset + i) c _ hc hfresh.1
                    (by simpa using hempty) rfl
                · exact hfresh.2
    · simp only [hi, if_false] at h
      injection h with h
      subst h
      exact hinv

theorem uncommitLoop_noLeak (sh offset size : Nat) :
    ∀ (fuel i : Nat) (s : ZPhysicalMemoryBackingSmallPages)
        (r : Nat × ZPhysicalMemoryBackingSmallPages),
      NoLeak s → s.uncommitLoop sh offset size fuel i = .ok r → NoLeak r.2 := by
  intro fuel
  induction fuel with
  | zero => intro i s r _ h; simp [ZPhysicalMemoryBackingSmallPages.uncommitLoop] at h
  | succ fuel ih =>
    intro i s r hinv h
    simp only [ZPhysicalMemoryBackingSmallPages.uncommitLoop] at h
    by_cases hi : i < size
    · simp only [hi, if_true, ZPhysicalMemoryBackingSmallPages.get_handle,
        ZPhysicalMemoryBackingSmallPages.clear_handle] at h
      by_cases h0 : s._handles.get (offset + i) = 0
      · simp [h0] at h
      · simp only [h0, if_false] at h
        refine ih _ _ _ ?_ h
        exact hinv.release (offset + i) _ h0 rfl
    · simp only [hi, if_false] at h
      injection h with h
      subst h
      exact hinv

theorem createdNotClosed_append (calls : List MapperCall) (c : MapperCall) :
    createdNotClosed (calls ++ [c]) = liveAfter (createdNotClosed calls) c := by
  simp [createdNotClosed, List.foldl_append]

theorem commitLoop_trace (sh offset size : Nat) :
    ∀ (fuel i : Nat) (script : List HANDLE) (s : ZPhysicalMemoryBackingSmallPages)
        (r : Nat × ZPhysicalMemoryBackingSmallPages),
      s.mapper.live = createdNotClosed s.mapper.calls →
      s.commitLoop sh offset size fuel i script = .ok r →
      r.2.mapper.live = createdNotClosed r.2.mapper.calls := by
  intro fuel
  induction fuel with
  | zero => intro i script s r _ h; simp [ZPhysicalMemoryBackingSmallPages.commitLoop] at h
  | succ fuel ih =>
    intro i script s r hinv h
    simp only [ZPhysicalMemoryBackingSmallPages.commitLoop] at h
    by_cases hi : i < size
    · simp only [hi, if_true] at h
      cases script with
      | nil =>
        simp only [ZMapper.create_and_commit_paging_file_mapping, if_true] at h
        injection h with h
        subst h
        simp [createdNotClosed_append, liveAfter, hinv]
      | cons c rest =>
        simp only [ZMapper.create_and_commit_paging_file_mapping] at h
        by_cases hc : c = 0
        · simp only [hc, if_true] at h
          injection h with h
          subst h
          simp [createdNotClosed_append, liveAfter, hinv]
        · simp only [hc, if_false] at h
          split at h
          · simp at h
          · rename_i s1 hp
            unfold ZPhysicalMemoryBackingSmallPages.put_handle at hp
            split at hp
            · simp at hp
            · split at hp
              · simp at hp
              · injection hp with hp
                subst hp
                refine ih _ _ _ _ ?_ h
                simp [createdNotClosed_append, liveAfter, hinv, hc]
    · simp only [hi, if_false] at h
      injection h with h
      subst h
      exact hinv

theorem uncommitLoop_trace (sh offset size : Nat) :
    ∀ (fuel i : Nat) (s : ZPhysicalMemoryBackingSmallPages)
        (r : Nat × ZPhysicalMemoryBackingSmallPages),
      s.mapper.live = createdNotClosed s.mapper.calls →
      s.uncommitLoop sh offset size fuel i = .ok r →
      r.2.mapper.live = createdNotClosed r.2.mapper.calls := by
  intro fuel
  induction fuel with
  | zero => intro i s r _ h; simp [ZPhysicalMemoryBackingSmallPages.uncommitLoop] at h
  | succ fuel ih =>
    intro i s r hinv h
    simp only [ZPhysicalMemoryBackingSmallPages.uncommitLoop] at h
    by_cases hi : i < size
    · simp only [hi, if_true, ZPhysicalMemoryBackingSmallPages.get_handle,
        ZPhysicalMemoryBackingSmallPages.clear_handle] at h
      by_cases h0 : s._handles.get (offset + i) = 0
      · simp [h0] at h
      · simp only [h0, if_false] at h
        refine ih _ _ _ ?_ h
        simp [ZMapper.close_paging_file_mapping, createdNotClosed_append, liveAfter, hinv]
    · simp only [hi, if_false] at h
      injection h with h
      subst h
      exact hinv

theorem mapLoop_trace (sh addr size offset : Nat) :
    ∀ (fuel i : Nat) (s s1 : ZPhysicalMemoryBackingSmallPages),
      s.mapper.live = createdNotClosed s.mapper.calls →
      s.mapLoop sh addr size offset fuel i = .ok s1 →
      s1.mapper.live = createdNotClosed s1.mapper.calls := by
  intro fuel
  induction fuel with
  | zero => intro i s s1 _ h; simp [ZPhysicalMemoryBackingSmallPages.mapLoop] at h
  | succ fuel ih =>
    intro i s s1 hinv h
    simp only [ZPhysicalMemoryBackingSmallPages.mapLoop] at h
    by_cases hi : i < size
    · simp only [hi, if_true] at h
      cases hg : ZPhysicalMemoryBackingSmallPages.get_handle s (offset + i) with
      | error e => simp [hg] at h
      | ok handle =>
        simp only [hg] at h
        cases hm : ZMapper.map_view_replace_placeholder handle 0 (addr + i) (ZGranuleSize sh)
            s.mapper with
        | error e => simp [hm] at h
        | ok m =>
          simp only [hm] at h
          refine ih _ _ _ ?_ h
          unfold ZMapper.map_view_replace_placeholder at hm
          split at hm
          · injection hm with hm
            subst hm
            simp [createdNotClosed_append, liveAfter, hinv]
          · simp at hm
    · simp only [hi, if_false] at h
      injection h with h
      subst h
      exact hinv

theorem unmapLoop_trace (sh addr size : Nat) :
    ∀ (fuel i : Nat) (s s1 : ZPhysicalMemoryBackingSmallPages),
      s.mapper.live = createdNotClosed s.mapper.calls →
      s.unmapLoop sh addr size fuel i = .ok s1 →
      s1.mapper.live = createdNotClosed s1.mapper.calls := by
  intro fuel
  induction fuel with
  | zero => intro i s s1 _ h; simp [ZPhysicalMemoryBackingSmallPages.unmapLoop] at h
  | succ fuel ih =>
    intro i s s1 hinv h
    simp only [ZPhysicalMemoryBackingSmallPages.unmapLoop] at h
    by_cases hi : i < size
    · simp only [hi, if_true] at h
      cases hm : ZMapper.unmap_view_preserve_placeholder (addr + i) (ZGranuleSize sh)
          s.mapper with
      | error e => simp [hm] at h
      | ok m =>
        simp only [hm] at h
        refine ih _ _ _ ?_ h
        unfold ZMapper.unmap_view_preserve_placeholder at hm
        split at hm
        · injection hm with hm
          subst hm
          simp [createdNotClosed_append, liveAfter, hinv]
        · simp at hm
    · simp only [hi, if_false] at h
      injection h with h
      subst h
      exact hinv

theorem small_map_trace (sh addr size offset : Nat) (s s1 : ZPhysicalMemoryBackingSmallPages)
    (hinv : s.mapper.live = createdNotClosed s.mapper.calls)
    (hc : s.map sh addr size offset = .ok s1) :
    s1.mapper.live = createdNotClosed s1.mapper.calls := by
  unfold ZPhysicalMemoryBackingSmallPages.map at hc
  split at hc
  · simp at hc
  · split at hc
    · simp at hc
    · split at hc
      · simp at hc
      · exact mapLoop_trace sh addr size offset _ 0 _ _ hinv hc

theorem small_unmap_trace (sh addr size : Nat) (s s1 : ZPhysicalMemoryBackingSmallPages)
    (hinv : s.mapper.live = createdNotClosed s.mapper.calls)
    (hc : s.unmap sh addr size = .ok s1) :
    s1.mapper.live = createdNotClosed s1.mapper.calls := by
  unfold ZPhysicalMemoryBackingSmallPages.unmap at hc
  split at hc
  · simp at hc
  · split at hc
    · simp at hc
    · exact unmapLoop_trace sh addr size _ 0 _ _ hinv hc

/-- C10. No-leak invariant of the small-pages strategy.  Assume every successful
creation returns a fresh non-null handle.  Then in every state reachable from the
empty store by calls of commit, uncommit, map and unmap that return (a commit cut
short by a failed creation included): the live mapping objects are listed once
each; a handle is live if and only if it is a non-null handle held in some slot of
the store; no non-null handle is held in two slots; and the live mapping objects
are exactly those that the trace of mapper calls has created and not yet closed. -/
theorem small_pages_no_leak (sh : Nat) (s : ZPhysicalMemoryBackingSmallPages) (h : Reachable sh s) :
    NoLeak s ∧ s.mapper.live = createdNotClosed s.mapper.calls := by
  induction h with
  | init views =>
    refine ⟨⟨List.nodup_nil, ?_, ?_⟩, rfl⟩
    · intro x
      simp only [List.not_mem_nil, false_iff, ZGranuleMap.get, ZGranuleMap.empty]
      rintro ⟨hx, _, rfl⟩
      exact hx rfl
    · intro o1 o2 h1
      exact absurd rfl h1
  | commit offset size n script _ hfresh hc ih =>
    exact ⟨commitLoop_noLeak sh offset size _ 0 script _ _ ih.1 hfresh hc,
      commitLoop_trace sh offset size _ 0 script _ _ ih.2 hc⟩
  | uncommit offset size n _ hc ih =>
    exact ⟨uncommitLoop_noLeak sh offset size _ 0 _ _ ih.1 hc,
      uncommitLoop_trace sh offset size _ 0 _ _ ih.2 hc⟩
  | map addr size offset _ hc ih =>
    have := small_map_frame sh addr size offset _ _ hc
    exact ⟨ih.1.of_eq this.1 this.2, small_map_trace sh addr size offset _ _ ih.2 hc⟩
  | unmap addr size _ hc ih =>
    have := small_unmap_frame sh addr size _ _ hc
    exact ⟨ih.1.of_eq this.1 this.2, small_unmap_trace sh addr size _ _ ih.2 hc⟩

/-- Witness of C10: granule size 2; the state after commit(0, 6) from the empty
store when the creations return 5, 7 and then fail.  The commit returned 4, the
two created handles stay registered at the offsets 0 and 2 and are the live
mapping objects, and the invariant holds. -/
theorem small_pages_no_leak_witness :
    ZPhysicalMemoryBackingSmallPages.commit 1 0 6 [5, 7, 0] ⟨ZGranuleMap.empty, ⟨[], fun _ => none,
        []⟩⟩
      = .ok (4, ZPhysicalMemoryBackingSmallPages.shortCommitted 2 0 [5, 7]
          ⟨ZGranuleMap.empty, ⟨[], fun _ => none, []⟩⟩) ∧
    (ZPhysicalMemoryBackingSmallPages.shortCommitted 2 0 [5, 7]
      ⟨ZGranuleMap.empty, ⟨[], fun _ => none, []⟩⟩)._handles.get 0 = 5 ∧
    (ZPhysicalMemoryBackingSmallPages.shortCommitted 2 0 [5, 7]
      ⟨ZGranuleMap.empty, ⟨[], fun _ => none, []⟩⟩)._handles.get 2 = 7 ∧
    (ZPhysicalMemoryBackingSmallPages.shortCommitted 2 0 [5, 7]
      ⟨ZGranuleMap.empty, ⟨[], fun _ => none, []⟩⟩).mapper.live = [7, 5] ∧
    (ZPhysicalMemoryBackingSmallPages.shortCommitted 2 0 [5, 7]
      ⟨ZGranuleMap.empty, ⟨[], fun _ => none, []⟩⟩).mapper.calls
      = [MapperCall.create 2 5, MapperCall.create 2 7, MapperCall.create 2 0] ∧
    (NoLeak (ZPhysicalMemoryBackingSmallPages.shortCommitted 2 0 [5, 7]
        ⟨ZGranuleMap.empty, ⟨[], fun _ => none, []⟩⟩) ∧
      (ZPhysicalMemoryBackingSmallPages.shortCommitted 2 0 [5, 7]
        ⟨ZGranuleMap.empty, ⟨[], fun _ => none, []⟩⟩).mapper.live
        = createdNotClosed (ZPhysicalMemoryBackingSmallPages.shortCommitted 2 0 [5, 7]
            ⟨ZGranuleMap.empty, ⟨[], fun _ => none, []⟩⟩).mapper.calls) :=
  ⟨rfl, rfl, rfl, rfl, rfl,
   small_pages_no_leak 1 _
    (Reachable.commit 0 6 4 [5, 7, 0] (Reachable.init (fun _ => none))
      (Or.inr ⟨by decide, Or.inr ⟨by decide, Or.inl rfl⟩⟩) rfl)⟩

end ZBacking
